import Mathlib

/-!
# Verification of the SongbirdExamples VoiceChat firmware core

Shallow embedding of the VoiceChat example firmware
(`examples/VoiceChat/`): the serial transport protocol state machine
(`SerialProtcol.cpp`), the Opus codec pipeline (`OpusCodec.cpp`), the
recording engine (`RecordingEngine.cpp`) and the playback engine
(`PlaybackEngine.cpp`).  Machine integers are modelled as `Nat`/`Int`
(all the quantities involved stay far below the relevant word sizes, and
overflow is noted inline where the C code could wrap); C `float`
arithmetic in the resamplers is modelled by exact rational arithmetic
with truncation toward zero (the C cast semantics); Arduino `File`
objects are modelled as byte lists with an explicit position; outcomes
of external collaborators (the SD card and the libopus encoder/decoder)
are modelled as explicit oracle parameters.
-/

set_option maxHeartbeats 1000000
set_option maxRecDepth 10000

namespace VoiceChat

/-! ## Wire / protocol constants (SerialProtocol.h, OpusCodec.h, Config.h) -/

def SYNC_BYTE_1 : Nat := 0xAA
def SYNC_BYTE_2 : Nat := 0x55
def MAX_FILE_SIZE : Nat := 65536
def MAX_USERNAME_LEN : Nat := 31
def MAX_USERS : Nat := 20
def CONTROL_CHANNEL : Nat := 0xFF
def MSG_TYPE_JOIN : Nat := 0x01
def MSG_TYPE_PART : Nat := 0x02
def MSG_TYPE_PING : Nat := 0x03
def OPUS_FRAME_MS : Nat := 20
def OPUS_FRAME_SAMPLES : Nat := 320
def OPUS_MAX_PACKET_SIZE : Nat := 256
def ACCUMULATOR_SIZE : Nat := 1024
def RESAMPLE_INPUT_SAMPLES : Nat := 882
def RESAMPLE_OUTPUT_SAMPLES : Nat := 882
def AUDIO_BLOCK_SAMPLES : Nat := 128

/-! ## SerialProtocol: user roster (SerialProtcol.cpp lines 68-105)

Usernames are byte arrays holding C strings; `cstr` truncates a byte
list at the first NUL byte, which is the portion that `strcmp`,
`strncpy` and `strcpy` act on.  Entries stored in the `users` table are
always NUL-free lists of length at most `MAX_USERNAME_LEN` (strncpy with
bound `MAX_USERNAME_LEN` followed by explicit NUL termination). -/

def cstr (l : List Nat) : List Nat := l.takeWhile (fun b => b ≠ 0)

/-- `SerialProtocol::findUser`: linear scan with `strcmp`; returns the
index of the matching entry. -/
def findUser (users : List (List Nat)) (name : List Nat) : Option Nat :=
  users.findIdx? (fun u => u = cstr name)

/-- `SerialProtocol::addUser`: no-op when the table is full or the name
is already present; otherwise appends the (strncpy-truncated) name and
reports that the user list changed. -/
def addUser (users : List (List Nat)) (name : List Nat) :
    List (List Nat) × Bool :=
  if users.length ≥ MAX_USERS then (users, false)
  else if (findUser users name).isSome then (users, false)
  else (users ++ [(cstr name).take MAX_USERNAME_LEN], true)

/-- `SerialProtocol::removeUser`: remove the matching entry (shifting
the later entries down one slot, i.e. `List.eraseIdx`); no-op when the
name is absent. -/
def removeUser (users : List (List Nat)) (name : List Nat) :
    List (List Nat) × Bool :=
  match findUser users name with
  | none => (users, false)
  | some i => (users.eraseIdx i, true)

/-! ## SerialProtocol: receive state machine (SerialProtcol.cpp 211-377) -/

inductive RxState where
  | waitSync1
  | waitSync2
  | readLength
  | readChannel
  | readMsgType
  | readUsernameLen
  | readUsername
  | readData
  | discardData
  deriving DecidableEq, Repr

/-- The receiver-side state of `SerialProtocol`.  `rxFileOpen` and
`rxFileData` model the `rxFile` handle and the bytes written to it;
`rxSequence` counts successful `openRxFile` calls (the source increments
it exactly there); `completedFiles` counts the `return true` exits of
`processIncoming` (one per completed frame). -/
structure SP where
  rxState : RxState
  rxFileLength : Nat
  rxBytesReceived : Nat
  rxChannel : Nat
  rxLengthBytes : List Nat
  rxLengthPos : Nat
  rxMsgType : Nat
  rxUsernameLen : Nat
  rxUsernamePos : Nat
  rxUsername : List Nat
  rxFileOpen : Bool
  rxFileData : List Nat
  rxFileReady : Bool
  rxSequence : Nat
  users : List (List Nat)
  userListChanged : Bool
  completedFiles : Nat
  deriving DecidableEq, Repr

/-- `SerialProtocol::SerialProtocol()` followed by `begin`. -/
def initSP : SP :=
  { rxState := .waitSync1
    rxFileLength := 0
    rxBytesReceived := 0
    rxChannel := 0
    rxLengthBytes := [0, 0, 0, 0]
    rxLengthPos := 0
    rxMsgType := 0
    rxUsernameLen := 0
    rxUsernamePos := 0
    rxUsername := []
    rxFileOpen := false
    rxFileData := []
    rxFileReady := false
    rxSequence := 0
    users := []
    userListChanged := false
    completedFiles := 0 }

/-- `SerialProtocol::resetRxState` (lines 42-55): back to `WaitSync1`,
clear the per-frame fields and close the rx file if open.  (The
`rxLengthBytes` array itself is not cleared by the source; only
`rxLengthPos` is reset.) -/
def resetRxState (s : SP) : SP :=
  { s with
    rxState := .waitSync1
    rxFileLength := 0
    rxBytesReceived := 0
    rxLengthPos := 0
    rxMsgType := 0
    rxUsernameLen := 0
    rxUsernamePos := 0
    rxUsername := []
    rxFileOpen := false }

/-- The effect of `addUser(rxUsername)` on the protocol state (sets the
sticky `userListChanged` flag only when the roster actually changed). -/
def addUserS (s : SP) : SP :=
  let r := addUser s.users s.rxUsername
  { s with users := r.1, userListChanged := s.userListChanged || r.2 }

/-- The effect of `removeUser(rxUsername)` on the protocol state. -/
def removeUserS (s : SP) : SP :=
  let r := removeUser s.users s.rxUsername
  { s with users := r.1, userListChanged := s.userListChanged || r.2 }

/-- One step of the byte-at-a-time receive state machine: the body of
the `switch` in `SerialProtocol::processIncoming` (lines 219-373) for a
single input byte.  `openOk` is the SD-card oracle: whether
`SD.open(rxFilePath, FILE_WRITE)` inside `openRxFile` succeeds. -/
def step (openOk : Bool) (s : SP) (byte : Nat) : SP :=
  match s.rxState with
  | .waitSync1 =>
      if byte = SYNC_BYTE_1 then { s with rxState := .waitSync2 } else s
  | .waitSync2 =>
      if byte = SYNC_BYTE_2 then
        { s with rxState := .readLength, rxLengthPos := 0 }
      else if byte = SYNC_BYTE_1 then s        -- stay in SYNC2 state
      else { s with rxState := .waitSync1 }
  | .readLength =>
      -- rxLengthBytes[rxLengthPos++] = byte
      let lb := s.rxLengthBytes.set s.rxLengthPos byte
      let pos := s.rxLengthPos + 1
      if pos ≥ 4 then
        -- little-endian accumulate (uint32, values stay below 2^32)
        let len := lb.getD 0 0 + 256 * lb.getD 1 0 +
          65536 * lb.getD 2 0 + 16777216 * lb.getD 3 0
        if len > MAX_FILE_SIZE then
          resetRxState { s with
            rxLengthBytes := lb
            rxLengthPos := pos
            rxFileLength := len }
        else
          { s with
            rxLengthBytes := lb
            rxLengthPos := pos
            rxFileLength := len
            rxState := .readChannel }
      else
        { s with
          rxLengthBytes := lb
          rxLengthPos := pos }
  | .readChannel =>
      let s1 := { s with rxChannel := byte }
      if byte = CONTROL_CHANNEL ∧ s1.rxFileLength = 0 then
        { s1 with rxState := .readMsgType }
      else if s1.rxFileLength = 0 then
        resetRxState s1                        -- zero length non-control
      else
        { s1 with rxState := .readUsernameLen }
  | .readMsgType =>
      let s1 := { s with rxMsgType := byte }
      if byte = MSG_TYPE_JOIN ∨ byte = MSG_TYPE_PART then
        { s1 with rxState := .readUsernameLen }
      else if byte = MSG_TYPE_PING then resetRxState s1
      else resetRxState s1                     -- unknown msg type
  | .readUsernameLen =>
      let ulen := if byte > MAX_USERNAME_LEN then MAX_USERNAME_LEN else byte
      let s1 := { s with
        rxUsernameLen := ulen
        rxUsernamePos := 0
        rxUsername := [] }
      if ulen = 0 then
        if s1.rxChannel = CONTROL_CHANNEL then
          resetRxState s1                      -- control msg with no username
        else
          let s2 := { s1 with rxBytesReceived := 0 }
          if openOk then
            { s2 with
              rxFileOpen := true
              rxFileData := []
              rxSequence := s2.rxSequence + 1
              rxState := .readData }
          else resetRxState s2                 -- openRxFile failed: reset
      else { s1 with rxState := .readUsername }
  | .readUsername =>
      let s1 := { s with
        rxUsername := s.rxUsername ++ [byte]
        rxUsernamePos := s.rxUsernamePos + 1 }
      if s1.rxUsernamePos ≥ s1.rxUsernameLen then
        if s1.rxChannel = CONTROL_CHANNEL then
          let s2 :=
            if s1.rxMsgType = MSG_TYPE_JOIN then addUserS s1
            else if s1.rxMsgType = MSG_TYPE_PART then removeUserS s1
            else s1
          resetRxState s2
        else
          let s2 := { s1 with rxBytesReceived := 0 }
          if openOk then
            { s2 with
              rxFileOpen := true
              rxFileData := []
              rxSequence := s2.rxSequence + 1
              rxState := .readData }
          else { s2 with rxState := .discardData }   -- discard incoming data
      else s1
  | .readData =>
      let s1 := { s with
        rxFileData := s.rxFileData ++ [byte]
        rxBytesReceived := s.rxBytesReceived + 1 }
      if s1.rxBytesReceived ≥ s1.rxFileLength then
        resetRxState { s1 with
          rxFileReady := true
          completedFiles := s1.completedFiles + 1 }
      else s1
  | .discardData =>
      let s1 := { s with rxBytesReceived := s.rxBytesReceived + 1 }
      if s1.rxBytesReceived ≥ s1.rxFileLength then resetRxState s1 else s1

/-- Feeding a byte sequence through `processIncoming` (the source
processes all currently-available bytes in a `while` loop; the `return`
statements only split the sequence across calls, the per-byte state
evolution is this fold). -/
def runBytes (openOk : Bool) (s : SP) (bytes : List Nat) : SP :=
  bytes.foldl (step openOk) s

/-- The bytes of one well-formed receive frame:
`[SYNC][SYNC][length:4 LE][channel][usernameLen][username][payload]`
(SerialProtocol.h line 5). -/
def frameBytes (len ch ulen : Nat) (uname payload : List Nat) : List Nat :=
  [SYNC_BYTE_1, SYNC_BYTE_2, len % 256, len / 256 % 256,
   len / 65536 % 256, len / 16777216 % 256, ch, ulen] ++ uname ++ payload

/-! ### Roster lemmas -/

lemma findUser_eq_none_iff (users : List (List Nat)) (name : List Nat) :
    findUser users name = none ↔ cstr name ∉ users := by
  unfold findUser
  rw [List.findIdx?_eq_none_iff]
  constructor
  · intro h hmem
    have h2 := h (cstr name) hmem
    simp at h2
  · intro h x hx
    simp only [decide_eq_false_iff_not]
    exact fun he => h (he ▸ hx)

lemma removeUser_eq (users : List (List Nat)) (name : List Nat) :
    removeUser users name =
      if cstr name ∈ users then (users.erase (cstr name), true)
      else (users, false) := by
  induction users with
  | nil => simp [removeUser, findUser]
  | cons a tl ih =>
      unfold removeUser findUser at ih ⊢
      rw [List.findIdx?_cons]
      by_cases h : a = cstr name
      · simp [h, List.erase_cons_head]
      · have h2 : decide (a = cstr name) = false := by simp [h]
        rw [h2]
        simp only [Bool.false_eq_true, if_false, List.findIdx?_succ]
        have hac : ¬cstr name = a := fun hc => h hc.symm
        cases htl : List.findIdx? (fun u => decide (u = cstr name)) tl with
        | none =>
            rw [htl] at ih
            have hnm : cstr name ∉ tl := by
              by_contra hmem
              rw [if_pos hmem] at ih
              have := congrArg Prod.snd ih
              simp at this
            simp [List.mem_cons, hac, hnm, List.erase_cons, h2,
              Option.map_none']
        | some i =>
            rw [htl] at ih
            have hmem : cstr name ∈ tl := by
              by_contra hnm
              rw [if_neg hnm] at ih
              have := congrArg Prod.snd ih
              simp at this
            have herase : tl.eraseIdx i = tl.erase (cstr name) := by
              rw [if_pos hmem] at ih
              exact congrArg Prod.fst ih
            simp only [Option.map_some']
            simp [List.mem_cons, hmem, hac, List.eraseIdx_cons_succ, herase,
              List.erase_cons, h2]
            rw [if_neg h]

lemma findUser_isSome_of_mem {users : List (List Nat)} {name : List Nat}
    (h : cstr name ∈ users) : (findUser users name).isSome = true := by
  rw [Option.isSome_iff_ne_none]
  intro hn
  exact (findUser_eq_none_iff users name).mp hn h

/-- C7: a join of a present name is a no-op that does not report a
change; a part of an absent name is a no-op that does not report a
change; a part of a present name removes exactly that entry, keeping the
remaining entries in order (`List.erase`); and both operations preserve
the no-duplicates invariant and the fixed capacity `MAX_USERS = 20`
(usernames reaching `addUser` through the protocol have at most
`MAX_USERNAME_LEN = 31` bytes, which the hypothesis reflects). -/
theorem C7_roster_ops (users : List (List Nat)) (name : List Nat) :
    (cstr name ∈ users → addUser users name = (users, false)) ∧
    (cstr name ∉ users → removeUser users name = (users, false)) ∧
    (cstr name ∈ users →
      removeUser users name = (users.erase (cstr name), true)) ∧
    (users.Nodup → users.length ≤ MAX_USERS →
      (cstr name).length ≤ MAX_USERNAME_LEN →
      ((addUser users name).1.Nodup ∧
        (addUser users name).1.length ≤ MAX_USERS) ∧
      ((removeUser users name).1.Nodup ∧
        (removeUser users name).1.length ≤ MAX_USERS)) := by
  refine ⟨?_, ?_, ?_, ?_⟩
  · intro hmem
    unfold addUser
    by_cases hfull : users.length ≥ MAX_USERS
    · rw [if_pos hfull]
    · rw [if_neg hfull, if_pos (findUser_isSome_of_mem hmem)]
  · intro hnm
    rw [removeUser_eq, if_neg hnm]
  · intro hmem
    rw [removeUser_eq, if_pos hmem]
  · intro hnd hlen hname
    constructor
    · unfold addUser
      by_cases hfull : users.length ≥ MAX_USERS
      · rw [if_pos hfull]; exact ⟨hnd, hlen⟩
      · rw [if_neg hfull]
        by_cases hsome : (findUser users name).isSome = true
        · rw [if_pos hsome]; exact ⟨hnd, hlen⟩
        · rw [if_neg hsome]
          have hnm : cstr name ∉ users := by
            rw [← findUser_eq_none_iff users name]
            rw [Option.isSome_iff_ne_none] at hsome
            exact not_not.mp hsome
          have htake : (cstr name).take MAX_USERNAME_LEN = cstr name :=
            List.take_of_length_le hname
          constructor
          · rw [htake, List.nodup_append]
            exact ⟨hnd, List.nodup_singleton _,
              fun x hx hx2 => hnm ((List.mem_singleton.mp hx2) ▸ hx)⟩
          · rw [List.length_append]
            simp only [List.length_singleton]
            omega
    · rw [removeUser_eq]
      by_cases hmem : cstr name ∈ users
      · rw [if_pos hmem]
        exact ⟨(List.erase_sublist _ _).nodup hnd,
          le_trans (List.Sublist.length_le (List.erase_sublist _ _)) hlen⟩
      · rw [if_neg hmem]; exact ⟨hnd, hlen⟩

/-- Witness for `C7_roster_ops` at concrete rosters. -/
theorem C7_roster_ops_witness :
    addUser [[65]] [65] = ([[65]], false) ∧
    removeUser [[65]] [66] = ([[65]], false) ∧
    removeUser [[65]] [65] = (([[65]] : List (List Nat)).erase (cstr [65]), true) ∧
    ((addUser [[65]] [66]).1.Nodup ∧ (addUser [[65]] [66]).1.length ≤ MAX_USERS) :=
  ⟨(C7_roster_ops [[65]] [65]).1 (by decide),
   (C7_roster_ops [[65]] [66]).2.1 (by decide),
   (C7_roster_ops [[65]] [65]).2.2.1 (by decide),
   ((C7_roster_ops [[65]] [66]).2.2.2 (by decide) (by decide) (by decide)).1⟩

/-! ### Receive state machine lemmas -/


lemma exists_len4 {l : List Nat} (h : l.length = 4) :
    ∃ a b c d, l = [a, b, c, d] := by
  match l, h with
  | [a, b, c, d], _ => exact ⟨a, b, c, d, rfl⟩

lemma run_header (o : Bool) (s : SP) (len ch : Nat)
    (hst : s.rxState = .waitSync1) (hlb : s.rxLengthBytes.length = 4)
    (hlen1 : 1 ≤ len) (hlen2 : len ≤ MAX_FILE_SIZE)
    (hch : ch ≠ CONTROL_CHANNEL) :
    runBytes o s [SYNC_BYTE_1, SYNC_BYTE_2, len % 256, len / 256 % 256,
      len / 65536 % 256, len / 16777216 % 256, ch] =
    { s with
      rxState := .readUsernameLen
      rxLengthPos := 4
      rxLengthBytes := [len % 256, len / 256 % 256, len / 65536 % 256,
        len / 16777216 % 256]
      rxFileLength := len
      rxChannel := ch } := by
  obtain ⟨a, b, c, d, hl⟩ := exists_len4 hlb
  have hrec : len % 256 + 256 * (len / 256 % 256) + 65536 * (len / 65536 % 256)
      + 16777216 * (len / 16777216 % 256) = len := by
    have : len ≤ 65536 := hlen2
    omega
  have hgt : ¬(len > MAX_FILE_SIZE) := by
    unfold MAX_FILE_SIZE at hlen2 ⊢
    omega
  have hne0 : ¬(len = 0) := by omega
  simp [runBytes, step, hst, hl, List.set, List.getD, hrec, hgt, hne0, hch,
    SYNC_BYTE_1, SYNC_BYTE_2]



lemma run_data (o : Bool) :
    ∀ (payload : List Nat) (s : SP), s.rxState = .readData →
    s.rxBytesReceived + payload.length = s.rxFileLength →
    s.rxBytesReceived < s.rxFileLength →
    runBytes o s payload =
      { s with
        rxState := .waitSync1
        rxFileLength := 0
        rxBytesReceived := 0
        rxLengthPos := 0
        rxMsgType := 0
        rxUsernameLen := 0
        rxUsernamePos := 0
        rxUsername := []
        rxFileOpen := false
        rxFileData := s.rxFileData ++ payload
        rxFileReady := true
        completedFiles := s.completedFiles + 1 } := by
  intro payload
  induction payload with
  | nil => intro s hst hlen hpos; simp at hlen; omega
  | cons x rest ih =>
      intro s hst hlen hpos
      simp only [runBytes, List.foldl_cons]
      by_cases hlast : rest = []
      · subst hlast
        simp at hlen
        have hge : s.rxBytesReceived + 1 ≥ s.rxFileLength := by omega
        simp [runBytes, step, hst, resetRxState, hge]
      · have hlt : s.rxBytesReceived + 1 < s.rxFileLength := by
          have : rest.length > 0 := List.length_pos.mpr hlast
          simp at hlen
          omega
        have hstep : step o s x =
            { s with
              rxFileData := s.rxFileData ++ [x]
              rxBytesReceived := s.rxBytesReceived + 1 } := by
          have hnge : ¬(s.rxBytesReceived + 1 ≥ s.rxFileLength) := by omega
          simp [step, hst, hnge]
        rw [hstep]
        rw [show (List.foldl (step o) _ rest) = runBytes o _ rest from rfl]
        rw [ih _ (by simpa using hst) (by simp at hlen ⊢; omega) (by simp; omega)]
        simp



lemma run_discard (o : Bool) :
    ∀ (payload : List Nat) (s : SP), s.rxState = .discardData →
    s.rxBytesReceived + payload.length = s.rxFileLength →
    s.rxBytesReceived < s.rxFileLength →
    runBytes o s payload =
      { s with
        rxState := .waitSync1
        rxFileLength := 0
        rxBytesReceived := 0
        rxLengthPos := 0
        rxMsgType := 0
        rxUsernameLen := 0
        rxUsernamePos := 0
        rxUsername := []
        rxFileOpen := false } := by
  intro payload
  induction payload with
  | nil => intro s hst hlen hpos; simp at hlen; omega
  | cons x rest ih =>
      intro s hst hlen hpos
      simp only [runBytes, List.foldl_cons]
      by_cases hlast : rest = []
      · subst hlast
        simp at hlen
        have hge : s.rxBytesReceived + 1 ≥ s.rxFileLength := by omega
        simp [runBytes, step, hst, resetRxState, hge]
      · have hlt : s.rxBytesReceived + 1 < s.rxFileLength := by
          have : rest.length > 0 := List.length_pos.mpr hlast
          simp at hlen
          omega
        have hstep : step o s x =
            { s with rxBytesReceived := s.rxBytesReceived + 1 } := by
          have hnge : ¬(s.rxBytesReceived + 1 ≥ s.rxFileLength) := by omega
          simp [step, hst, hnge]
        rw [hstep]
        rw [show (List.foldl (step o) _ rest) = runBytes o _ rest from rfl]
        rw [ih _ (by simpa using hst) (by simp at hlen ⊢; omega) (by simp; omega)]

lemma run_uname (o : Bool) :
    ∀ (uname : List Nat) (s : SP), s.rxState = .readUsername →
    s.rxUsernamePos + uname.length = s.rxUsernameLen →
    s.rxUsernamePos < s.rxUsernameLen →
    s.rxChannel ≠ CONTROL_CHANNEL →
    runBytes o s uname =
      (if o then
        { s with
          rxState := .readData
          rxUsername := s.rxUsername ++ uname
          rxUsernamePos := s.rxUsernameLen
          rxBytesReceived := 0
          rxFileOpen := true
          rxFileData := []
          rxSequence := s.rxSequence + 1 }
      else
        { s with
          rxState := .discardData
          rxUsername := s.rxUsername ++ uname
          rxUsernamePos := s.rxUsernameLen
          rxBytesReceived := 0 }) := by
  intro uname
  induction uname with
  | nil => intro s hst hlen hpos hch; simp at hlen; omega
  | cons x rest ih =>
      intro s hst hlen hpos hch
      simp only [runBytes, List.foldl_cons]
      by_cases hlast : rest = []
      · subst hlast
        simp at hlen
        have hge : s.rxUsernamePos + 1 ≥ s.rxUsernameLen := by omega
        cases o <;>
          simp [runBytes, step, hst, hge, hch, hlen]
      · have hlt : s.rxUsernamePos + 1 < s.rxUsernameLen := by
          have : rest.length > 0 := List.length_pos.mpr hlast
          simp at hlen
          omega
        have hstep : step o s x =
            { s with
              rxUsername := s.rxUsername ++ [x]
              rxUsernamePos := s.rxUsernamePos + 1 } := by
          have hnge : ¬(s.rxUsernamePos + 1 ≥ s.rxUsernameLen) := by omega
          simp [step, hst, hnge]
        rw [hstep]
        rw [show (List.foldl (step o) _ rest) = runBytes o _ rest from rfl]
        rw [ih _ (by simpa using hst) (by simp at hlen ⊢; omega) (by simp; omega)
          (by simpa using hch)]
        cases o <;> simp



lemma run_discard_mid (o : Bool) :
    ∀ (p : List Nat) (s : SP), s.rxState = .discardData →
    s.rxBytesReceived + p.length < s.rxFileLength →
    runBytes o s p =
      { s with rxBytesReceived := s.rxBytesReceived + p.length } := by
  intro p
  induction p with
  | nil => intro s hst hlt; simp [runBytes]
  | cons x rest ih =>
      intro s hst hlt
      simp only [runBytes, List.foldl_cons]
      have hnge : ¬(s.rxBytesReceived + 1 ≥ s.rxFileLength) := by
        simp at hlt; omega
      have hstep : step o s x =
          { s with rxBytesReceived := s.rxBytesReceived + 1 } := by
        simp [step, hst, hnge]
      rw [hstep]
      rw [show (List.foldl (step o) _ rest) = runBytes o _ rest from rfl]
      rw [ih _ (by simpa using hst) (by simp at hlt ⊢; omega)]
      simp
      omega

lemma step_ulen_pos (o : Bool) (s : SP) (ulen : Nat)
    (hst : s.rxState = .readUsernameLen) (hul : ulen ≤ MAX_USERNAME_LEN)
    (hpos : 1 ≤ ulen) :
    step o s ulen =
      { s with
        rxState := .readUsername
        rxUsernameLen := ulen
        rxUsernamePos := 0
        rxUsername := [] } := by
  have h1 : ¬(ulen > MAX_USERNAME_LEN) := by omega
  have h2 : ¬(ulen = 0) := by omega
  simp [step, hst, h1, h2]

lemma step_ulen_zero (s : SP)
    (hst : s.rxState = .readUsernameLen) (hch : s.rxChannel ≠ CONTROL_CHANNEL) :
    step true s 0 =
      { s with
        rxState := .readData
        rxUsernameLen := 0
        rxUsernamePos := 0
        rxUsername := []
        rxBytesReceived := 0
        rxFileOpen := true
        rxFileData := []
        rxSequence := s.rxSequence + 1 } := by
  simp [step, hst, hch, MAX_USERNAME_LEN]



lemma runBytes_append (o : Bool) (s : SP) (xs ys : List Nat) :
    runBytes o s (xs ++ ys) = runBytes o (runBytes o s xs) ys :=
  List.foldl_append _ _ _ _

lemma run_frame_true (s : SP) (len ch ulen : Nat) (uname payload : List Nat)
    (hst : s.rxState = .waitSync1) (hlb : s.rxLengthBytes.length = 4)
    (hlen1 : 1 ≤ len) (hlen2 : len ≤ MAX_FILE_SIZE)
    (hch : ch ≠ CONTROL_CHANNEL) (hul : ulen ≤ MAX_USERNAME_LEN)
    (hun : uname.length = ulen) (hpl : payload.length = len) :
    runBytes true s (frameBytes len ch ulen uname payload) =
    { s with
      rxState := .waitSync1
      rxFileLength := 0
      rxBytesReceived := 0
      rxChannel := ch
      rxLengthBytes := [len % 256, len / 256 % 256, len / 65536 % 256,
        len / 16777216 % 256]
      rxLengthPos := 0
      rxMsgType := 0
      rxUsernameLen := 0
      rxUsernamePos := 0
      rxUsername := []
      rxFileOpen := false
      rxFileData := payload
      rxFileReady := true
      rxSequence := s.rxSequence + 1
      completedFiles := s.completedFiles + 1 } := by
  have hsplit : frameBytes len ch ulen uname payload =
      [SYNC_BYTE_1, SYNC_BYTE_2, len % 256, len / 256 % 256,
        len / 65536 % 256, len / 16777216 % 256, ch] ++
      (ulen :: (uname ++ payload)) := by
    simp [frameBytes]
  rw [hsplit, runBytes_append,
    run_header true s len ch hst hlb hlen1 hlen2 hch]
  rcases Nat.eq_zero_or_pos ulen with h0 | hpos
  · subst h0
    have hu0 : uname = [] := List.length_eq_zero.mp (by omega)
    subst hu0
    simp only [runBytes, List.foldl_cons, List.nil_append]
    rw [show List.foldl (step true) _ _ = runBytes true (step true _ 0) payload
      from rfl]
    rw [step_ulen_zero _ (by simp) (by simpa using hch)]
    rw [run_data true payload _ (by simp) (by simp [hpl]) (by simp; omega)]
    simp
  · simp only [runBytes, List.foldl_cons]
    rw [show List.foldl (step true) _ _ =
      runBytes true (step true _ ulen) (uname ++ payload) from rfl]
    rw [step_ulen_pos true _ ulen (by simp) hul hpos]
    rw [runBytes_append]
    rw [run_uname true uname _ (by simp) (by simp [hun]) (by simp; omega)
      (by simpa using hch)]
    simp only [if_true]
    rw [run_data true payload _ (by simp) (by simp [hpl]) (by simp; omega)]
    simp



lemma run_frame_false_pos (s : SP) (len ch ulen : Nat) (uname payload : List Nat)
    (hst : s.rxState = .waitSync1) (hlb : s.rxLengthBytes.length = 4)
    (hlen1 : 1 ≤ len) (hlen2 : len ≤ MAX_FILE_SIZE)
    (hch : ch ≠ CONTROL_CHANNEL) (hul : ulen ≤ MAX_USERNAME_LEN)
    (hpos : 1 ≤ ulen) (hun : uname.length = ulen) (hpl : payload.length = len) :
    runBytes false s (frameBytes len ch ulen uname payload) =
    { s with
      rxState := .waitSync1
      rxFileLength := 0
      rxBytesReceived := 0
      rxChannel := ch
      rxLengthBytes := [len % 256, len / 256 % 256, len / 65536 % 256,
        len / 16777216 % 256]
      rxLengthPos := 0
      rxMsgType := 0
      rxUsernameLen := 0
      rxUsernamePos := 0
      rxUsername := []
      rxFileOpen := false } := by
  have hsplit : frameBytes len ch ulen uname payload =
      [SYNC_BYTE_1, SYNC_BYTE_2, len % 256, len / 256 % 256,
        len / 65536 % 256, len / 16777216 % 256, ch] ++
      (ulen :: (uname ++ payload)) := by
    simp [frameBytes]
  rw [hsplit, runBytes_append,
    run_header false s len ch hst hlb hlen1 hlen2 hch]
  simp only [runBytes, List.foldl_cons]
  rw [show List.foldl (step false) _ _ =
    runBytes false (step false _ ulen) (uname ++ payload) from rfl]
  rw [step_ulen_pos false _ ulen (by simp) hul hpos]
  rw [runBytes_append]
  rw [run_uname false uname _ (by simp) (by simp [hun]) (by simp; omega)
    (by simpa using hch)]
  simp only [Bool.false_eq_true, if_false]
  rw [run_discard false payload _ (by simp) (by simp [hpl]) (by simp; omega)]

lemma run_frame_false_pos_mid (s : SP) (len ch ulen : Nat)
    (uname p : List Nat)
    (hst : s.rxState = .waitSync1) (hlb : s.rxLengthBytes.length = 4)
    (hlen1 : 1 ≤ len) (hlen2 : len ≤ MAX_FILE_SIZE)
    (hch : ch ≠ CONTROL_CHANNEL) (hul : ulen ≤ MAX_USERNAME_LEN)
    (hpos : 1 ≤ ulen) (hun : uname.length = ulen) (hpl : p.length < len) :
    (runBytes false s (frameBytes len ch ulen uname p)).rxState =
      .discardData ∧
    (runBytes false s (frameBytes len ch ulen uname p)).rxBytesReceived =
      p.length := by
  have hsplit : frameBytes len ch ulen uname p =
      [SYNC_BYTE_1, SYNC_BYTE_2, len % 256, len / 256 % 256,
        len / 65536 % 256, len / 16777216 % 256, ch] ++
      (ulen :: (uname ++ p)) := by
    simp [frameBytes]
  rw [hsplit, runBytes_append,
    run_header false s len ch hst hlb hlen1 hlen2 hch]
  simp only [runBytes, List.foldl_cons]
  rw [show List.foldl (step false) _ _ =
    runBytes false (step false _ ulen) (uname ++ p) from rfl]
  rw [step_ulen_pos false _ ulen (by simp) hul hpos]
  rw [runBytes_append]
  rw [run_uname false uname _ (by simp) (by simp [hun]) (by simp; omega)
    (by simpa using hch)]
  simp only [Bool.false_eq_true, if_false]
  rw [run_discard_mid false p _ (by simp) (by simp; omega)]
  simp

lemma step_ulen_zero_fail (s : SP)
    (hst : s.rxState = .readUsernameLen)
    (hch : s.rxChannel ≠ CONTROL_CHANNEL) :
    step false s 0 =
      { s with
        rxState := .waitSync1
        rxFileLength := 0
        rxBytesReceived := 0
        rxLengthPos := 0
        rxMsgType := 0
        rxUsernameLen := 0
        rxUsernamePos := 0
        rxUsername := []
        rxFileOpen := false } := by
  simp [step, hst, hch, MAX_USERNAME_LEN, resetRxState]



/-! ### Claims C1 and C2 -/

/-- C1: while reading the 4-byte little-endian length, a completed value
above `MAX_FILE_SIZE = 65536` resets the machine to `WaitSync1` with no
file opened; while reading the selector, a zero length with a
non-control selector likewise resets with no file opened; and from the
reset state a subsequent well-formed audio frame (two sync bytes, a
valid length, a selector, username-length/username and `len` payload
bytes) is parsed as exactly one complete frame. -/
theorem C1_invalid_length_resets_then_resync :
    (∀ (o : Bool) (s : SP) (b : Nat),
      s.rxState = .readLength → s.rxLengthPos = 3 →
      (s.rxLengthBytes.set 3 b).getD 0 0
        + 256 * (s.rxLengthBytes.set 3 b).getD 1 0
        + 65536 * (s.rxLengthBytes.set 3 b).getD 2 0
        + 16777216 * (s.rxLengthBytes.set 3 b).getD 3 0 > MAX_FILE_SIZE →
      (step o s b).rxState = .waitSync1 ∧ (step o s b).rxFileOpen = false ∧
      (step o s b).rxSequence = s.rxSequence ∧
      (step o s b).completedFiles = s.completedFiles) ∧
    (∀ (o : Bool) (s : SP) (b : Nat),
      s.rxState = .readChannel → s.rxFileLength = 0 → b ≠ CONTROL_CHANNEL →
      (step o s b).rxState = .waitSync1 ∧ (step o s b).rxFileOpen = false ∧
      (step o s b).rxSequence = s.rxSequence ∧
      (step o s b).completedFiles = s.completedFiles) ∧
    (∀ (s : SP) (len ch ulen : Nat) (uname payload : List Nat),
      s.rxLengthBytes.length = 4 → 1 ≤ len → len ≤ MAX_FILE_SIZE →
      ch ≠ CONTROL_CHANNEL → ulen ≤ MAX_USERNAME_LEN →
      uname.length = ulen → payload.length = len →
      (runBytes true (resetRxState s)
          (frameBytes len ch ulen uname payload)).completedFiles
        = s.completedFiles + 1 ∧
      (runBytes true (resetRxState s)
          (frameBytes len ch ulen uname payload)).rxState = .waitSync1 ∧
      (runBytes true (resetRxState s)
          (frameBytes len ch ulen uname payload)).rxFileData = payload ∧
      (runBytes true (resetRxState s)
          (frameBytes len ch ulen uname payload)).rxFileReady = true) := by
  refine ⟨?_, ?_, ?_⟩
  · intro o s b hst hpos hgt
    simp at hgt
    simp [step, hst, hpos, resetRxState, hgt]
  · intro o s b hst hlen0 hch
    simp [step, hst, hlen0, hch, resetRxState]
  · intro s len ch ulen uname payload hlb hlen1 hlen2 hch hul hun hpl
    rw [run_frame_true (resetRxState s) len ch ulen uname payload
      (by simp [resetRxState]) (by simpa [resetRxState] using hlb)
      hlen1 hlen2 hch hul hun hpl]
    simp [resetRxState]

/-- A state in the middle of reading the length field of a corrupted
frame whose first three length bytes are `FF FF FF`: used by the witness
of `C1_invalid_length_resets_then_resync`. -/
def c1CorruptState : SP :=
  { initSP with
    rxState := .readLength
    rxLengthPos := 3
    rxLengthBytes := [0xFF, 0xFF, 0xFF, 0] }

/-- Witness for `C1_invalid_length_resets_then_resync` at concrete
inputs: a length of `0xFFFFFFFF` resets, and afterwards the frame
`[AA 55 01 00 00 00 01 00 2A]` is parsed as exactly one complete
frame. -/
theorem C1_invalid_length_resets_then_resync_witness :
    ((step true c1CorruptState 0xFF).rxState = .waitSync1 ∧
     (step true c1CorruptState 0xFF).rxFileOpen = false ∧
     (step true c1CorruptState 0xFF).rxSequence = c1CorruptState.rxSequence ∧
     (step true c1CorruptState 0xFF).completedFiles
       = c1CorruptState.completedFiles) ∧
    ((runBytes true (resetRxState initSP)
        (frameBytes 1 1 0 [] [0x2A])).completedFiles = 0 + 1 ∧
     (runBytes true (resetRxState initSP)
        (frameBytes 1 1 0 [] [0x2A])).rxState = .waitSync1) := by
  constructor
  · exact C1_invalid_length_resets_then_resync.1 true c1CorruptState 0xFF
      (by decide) (by decide) (by decide)
  · have h := (C1_invalid_length_resets_then_resync.2.2 initSP 1 1 0 [] [0x2A]
      (by decide) (by decide) (by decide) (by decide) (by decide)
      (by decide) (by decide))
    exact ⟨h.1, h.2.1⟩

/-- C2 counterexample: the claim asserts that every audio frame whose
destination file cannot be created consumes exactly `length` payload
bytes in a discard sub-state before returning to `WaitSync1`, including
frames with a zero username length.  But for the anonymous frame
`[AA 55 01 00 00 00 01 00]` (`length = 1`, channel 1, username length 0)
with file creation failing, the machine is already back in `WaitSync1`
right after the username-length byte, before any of the 1 payload bytes:
the source resets instead of entering `RX_DISCARD_DATA`
(SerialProtcol.cpp lines 307-312), and the payload byte is then consumed
by the sync search, breaking frame alignment. -/
theorem C2_counterexample_anonymous_frame_not_discarded :
    (runBytes false initSP [0xAA, 0x55, 1, 0, 0, 0, 1, 0]).rxState
      = RxState.waitSync1 ∧
    (runBytes false initSP [0xAA, 0x55, 1, 0, 0, 0, 1, 0]).rxBytesReceived
      = 0 ∧
    (runBytes false initSP ([0xAA, 0x55, 1, 0, 0, 0, 1, 0] ++ [0x2A])).rxState
      ≠ RxState.discardData := by
  decide

/-- C2 (amended): when the destination file cannot be created, a frame
with a positive username length consumes exactly `length` payload bytes
in the discard sub-state and then returns to `WaitSync1` (with no file
opened and no frame completed), and while fewer than `length` payload
bytes have arrived the machine is still in `RX_DISCARD_DATA` having
counted exactly the bytes seen so far; a frame with a zero username
length instead resets to `WaitSync1` immediately at the username-length
byte, before consuming any payload bytes. -/
theorem C2_discard_consumes_exactly_length :
    (∀ (s : SP) (len ch ulen : Nat) (uname payload : List Nat),
      s.rxLengthBytes.length = 4 → 1 ≤ len → len ≤ MAX_FILE_SIZE →
      ch ≠ CONTROL_CHANNEL → 1 ≤ ulen → ulen ≤ MAX_USERNAME_LEN →
      uname.length = ulen → payload.length = len →
      (runBytes false (resetRxState s)
          (frameBytes len ch ulen uname payload)).rxState = .waitSync1 ∧
      (runBytes false (resetRxState s)
          (frameBytes len ch ulen uname payload)).rxSequence
        = s.rxSequence ∧
      (runBytes false (resetRxState s)
          (frameBytes len ch ulen uname payload)).completedFiles
        = s.completedFiles ∧
      (runBytes false (resetRxState s)
          (frameBytes len ch ulen uname payload)).rxFileOpen = false) ∧
    (∀ (s : SP) (len ch ulen : Nat) (uname p : List Nat),
      s.rxLengthBytes.length = 4 → 1 ≤ len → len ≤ MAX_FILE_SIZE →
      ch ≠ CONTROL_CHANNEL → 1 ≤ ulen → ulen ≤ MAX_USERNAME_LEN →
      uname.length = ulen → p.length < len →
      (runBytes false (resetRxState s)
          (frameBytes len ch ulen uname p)).rxState = .discardData ∧
      (runBytes false (resetRxState s)
          (frameBytes len ch ulen uname p)).rxBytesReceived = p.length) ∧
    (∀ (s : SP) (len ch : Nat),
      s.rxLengthBytes.length = 4 → 1 ≤ len → len ≤ MAX_FILE_SIZE →
      ch ≠ CONTROL_CHANNEL →
      (runBytes false (resetRxState s)
          (frameBytes len ch 0 [] [])).rxState = .waitSync1 ∧
      (runBytes false (resetRxState s)
          (frameBytes len ch 0 [] [])).rxBytesReceived = 0) := by
  refine ⟨?_, ?_, ?_⟩
  · intro s len ch ulen uname payload hlb hlen1 hlen2 hch hup hul hun hpl
    rw [run_frame_false_pos (resetRxState s) len ch ulen uname payload
      (by simp [resetRxState]) (by simpa [resetRxState] using hlb)
      hlen1 hlen2 hch hul hup hun hpl]
    simp [resetRxState]
  · intro s len ch ulen uname p hlb hlen1 hlen2 hch hup hul hun hpl
    exact run_frame_false_pos_mid (resetRxState s) len ch ulen uname p
      (by simp [resetRxState]) (by simpa [resetRxState] using hlb)
      hlen1 hlen2 hch hul hup hun hpl
  · intro s len ch hlb hlen1 hlen2 hch
    have hsplit : frameBytes len ch 0 [] [] =
        [SYNC_BYTE_1, SYNC_BYTE_2, len % 256, len / 256 % 256,
          len / 65536 % 256, len / 16777216 % 256, ch] ++ [0] := by
      simp [frameBytes]
    rw [hsplit, runBytes_append,
      run_header false (resetRxState s) len ch (by simp [resetRxState])
        (by simpa [resetRxState] using hlb) hlen1 hlen2 hch]
    rw [show runBytes false _ [0] = step false _ 0 from rfl]
    rw [step_ulen_zero_fail _ (by simp) (by simpa using hch)]
    simp

/-- Witness for `C2_discard_consumes_exactly_length` at a concrete frame
(`length = 2`, channel 1, username "A", payload of 2 bytes, file
creation failing). -/
theorem C2_discard_consumes_exactly_length_witness :
    ((runBytes false (resetRxState initSP)
        (frameBytes 2 1 1 [65] [7, 8])).rxState = .waitSync1 ∧
     (runBytes false (resetRxState initSP)
        (frameBytes 2 1 1 [65] [7, 8])).rxSequence = initSP.rxSequence ∧
     (runBytes false (resetRxState initSP)
        (frameBytes 2 1 1 [65] [7, 8])).completedFiles
       = initSP.completedFiles ∧
     (runBytes false (resetRxState initSP)
        (frameBytes 2 1 1 [65] [7, 8])).rxFileOpen = false) ∧
    ((runBytes false (resetRxState initSP)
        (frameBytes 2 1 1 [65] [7])).rxState = .discardData ∧
     (runBytes false (resetRxState initSP)
        (frameBytes 2 1 1 [65] [7])).rxBytesReceived = 1) :=
  ⟨C2_discard_consumes_exactly_length.1 initSP 2 1 1 [65] [7, 8]
    (by decide) (by decide) (by decide) (by decide) (by decide) (by decide)
    (by decide) (by decide),
   (C2_discard_consumes_exactly_length.2.1 initSP 2 1 1 [65] [7]
    (by decide) (by decide) (by decide) (by decide) (by decide) (by decide)
    (by decide) (by decide)).imp (fun h => h) (fun h => h)⟩



/-! ## RecordingEngine: startup sequence-number scan (RecordingEngine.cpp 36-61) -/

/-- Arduino `String::toInt` (atol) on the scanned digit field: value of
the leading run of decimal digits (0 when the field starts with a
non-digit, as atol returns 0 there). -/
def atolNat (cs : List Char) : Nat :=
  (cs.takeWhile Char.isDigit).foldl (fun a c => a * 10 + (c.toNat - 48)) 0

/-- `"MSG_"`: the prefix tested by `name.startsWith("MSG_")`. -/
def msgNamePre : List Char := ['M', 'S', 'G', '_']

/-- `".opus"`: the suffix tested by `name.endsWith(".opus")`. -/
def opusSuffix : List Char := ['.', 'o', 'p', 'u', 's']

/-- The per-entry parse in `RecordingEngine::begin`:
`name.startsWith("MSG_") && name.endsWith(".opus")` guards
`name.substring(4, 9).toInt()` (five characters after `MSG_`). -/
def parseSeqNum (name : List Char) : Option Nat :=
  if msgNamePre.isPrefixOf name && opusSuffix.isSuffixOf name then
    some (atolNat ((name.drop 4).take 5))
  else none

/-- The directory scan loop of `RecordingEngine::begin` (lines 40-55):
fold the running maximum of the parsed sequence numbers, starting from
`highest = 0`. -/
def scanHighest (names : List (List Char)) : Nat :=
  names.foldl (fun h n =>
    match parseSeqNum n with
    | some num => if num > h then num else h
    | none => h) 0

/-- `RecordingEngine::begin`, sequence-number part: when the TX
directory opens, `nextSequenceNumber := highest + 1` regardless of the
previous value of `nextSequenceNumber`; when `SD.open(TX_DIR)` fails the
field keeps its prior value (`persistedSeq`). -/
def recordingBegin (persistedSeq : Nat)
    (txDirListing : Option (List (List Char))) : Nat :=
  match txDirListing with
  | none => persistedSeq
  | some names => scanHighest names + 1

lemma scanHighest_ge (names : List (List Char)) :
    ∀ (h0 : Nat), h0 ≤ names.foldl (fun h n =>
      match parseSeqNum n with
      | some num => if num > h then num else h
      | none => h) h0 := by
  induction names with
  | nil => intro h0; simp
  | cons a tl ih =>
      intro h0
      simp only [List.foldl_cons]
      cases hp : parseSeqNum a with
      | none => simpa using ih h0
      | some num =>
          simp only
          by_cases hgt : num > h0
          · rw [if_pos hgt]
            exact le_trans (le_of_lt hgt) (ih num)
          · rw [if_neg hgt]
            exact ih h0

lemma scanHighest_mem (names : List (List Char)) :
    ∀ (h0 : Nat) (name : List Char) (v : Nat), name ∈ names →
      parseSeqNum name = some v →
      v ≤ names.foldl (fun h n =>
        match parseSeqNum n with
        | some num => if num > h then num else h
        | none => h) h0 := by
  induction names with
  | nil => intro h0 name v hmem; simp at hmem
  | cons a tl ih =>
      intro h0 name v hmem hv
      simp only [List.foldl_cons]
      rcases List.mem_cons.mp hmem with heq | htl
      · subst heq
        rw [hv]
        simp only
        by_cases hgt : v > h0
        · rw [if_pos hgt]; exact scanHighest_ge tl v
        · rw [if_neg hgt]
          exact le_trans (by omega) (scanHighest_ge tl h0)
      · cases hp : parseSeqNum a with
        | none => exact ih h0 name v htl hv
        | some num =>
            simp only
            by_cases hgt : num > h0
            · rw [if_pos hgt]; exact ih num name v htl hv
            · rw [if_neg hgt]; exact ih h0 name v htl hv

/-- `MSG_NNNNN.opus` with explicit digits. -/
def msgFile (d1 d2 d3 d4 d5 : Char) : List Char :=
  ['M', 'S', 'G', '_', d1, d2, d3, d4, d5, '.', 'o', 'p', 'u', 's']

/-- The concrete listing `MSG_00001.opus` .. `MSG_00017.opus`. -/
def msgFiles17 : List (List Char) :=
  [msgFile '0' '0' '0' '0' '1', msgFile '0' '0' '0' '0' '2',
   msgFile '0' '0' '0' '0' '3', msgFile '0' '0' '0' '0' '4',
   msgFile '0' '0' '0' '0' '5', msgFile '0' '0' '0' '0' '6',
   msgFile '0' '0' '0' '0' '7', msgFile '0' '0' '0' '0' '8',
   msgFile '0' '0' '0' '0' '9', msgFile '0' '0' '0' '1' '0',
   msgFile '0' '0' '0' '1' '1', msgFile '0' '0' '0' '1' '2',
   msgFile '0' '0' '0' '1' '3', msgFile '0' '0' '0' '1' '4',
   msgFile '0' '0' '0' '1' '5', msgFile '0' '0' '0' '1' '6',
   msgFile '0' '0' '0' '1' '7']

/-- C3: when the TX directory scan runs, engine startup sets the next
sequence number to (maximum parsed `MSG_NNNNN` value) + 1, independent
of any persisted counter value, so the next sequence number is strictly
greater than every existing file number; in particular with
`MSG_00001.opus` .. `MSG_00017.opus` present the next sequence number is
18 (hence at least 18) for every persisted counter value. -/
theorem C3_sequence_scan :
    (∀ (persisted : Nat) (names : List (List Char)),
      recordingBegin persisted (some names) = scanHighest names + 1) ∧
    (∀ (persisted : Nat) (names : List (List Char))
        (name : List Char) (v : Nat),
      name ∈ names → parseSeqNum name = some v →
      v < recordingBegin persisted (some names)) ∧
    (∀ (persisted : Nat), recordingBegin persisted (some msgFiles17) = 18) := by
  refine ⟨fun _ _ => rfl, ?_, ?_⟩
  · intro persisted names name v hmem hv
    have h := scanHighest_mem names 0 name v hmem hv
    show v < scanHighest names + 1
    unfold scanHighest
    omega
  · intro persisted
    show scanHighest msgFiles17 + 1 = 18
    decide

/-- Witness for `C3_sequence_scan`: the file `MSG_00017.opus` parses to
17, which is below the startup sequence number computed over the
17-file listing (with a persisted counter claiming 3). -/
theorem C3_sequence_scan_witness :
    parseSeqNum (msgFile '0' '0' '0' '1' '7') = some 17 ∧
    17 < recordingBegin 3 (some msgFiles17) :=
  ⟨by decide,
   C3_sequence_scan.2.1 3 msgFiles17 (msgFile '0' '0' '0' '1' '7') 17
     (by decide) (by decide)⟩





/-! ## OpusCodec resamplers (OpusCodec.cpp 185-256)

The C code computes `float srcPos = i * ratio; size_t srcIdx = srcPos;
float frac = srcPos - srcIdx` with `ratio = 44100.0f/16000.0f` (down)
or `16000.0f/44100.0f` (up).  The embedding computes the truncated
source index exactly (`i * 44100 / 16000` in Nat arithmetic, the exact
value of the float truncation) and models the interpolation blend and
fractional part in exact rational arithmetic with the C cast truncating
toward zero. -/

/-- Truncation of a rational toward zero: the C `(int16_t)`/`(size_t)`
cast applied to a float expression. -/
def ratTrunc (q : ℚ) : Int := Int.tdiv q.num (q.den : Int)

/-- `size_t srcIdx = (size_t)(i * (44100.0f/16000.0f))` in
`OpusCodec::downsample`. -/
def srcIdxDown (i : Nat) : Nat := i * 44100 / 16000

def fracDown (i : Nat) : ℚ :=
  (i : ℚ) * ((44100 : ℚ) / 16000) - (srcIdxDown i : ℚ)

def blend (a b : Int) (frac : ℚ) : Int :=
  ratTrunc ((a : ℚ) * (1 - frac) + (b : ℚ) * frac)

/-- The per-output-index body of `OpusCodec::downsample` (lines
193-212): interpolate between the two surrounding samples when a right
neighbour exists, else the sole remaining sample, else 0. -/
def downsampleAt (input : List Int) (i : Nat) : Int :=
  let srcIdx := srcIdxDown i
  if srcIdx + 1 < input.length then
    blend (input.getD srcIdx 0) (input.getD (srcIdx + 1) 0) (fracDown i)
  else if srcIdx < input.length then input.getD srcIdx 0
  else 0

/-- `OpusCodec::downsample`. -/
def downsample (input : List Int) (outputCount : Nat) : List Int :=
  (List.range outputCount).map (downsampleAt input)

/-- `size_t srcIdx = (size_t)(i * (16000.0f/44100.0f))` in
`OpusCodec::upsample`. -/
def srcIdxUp (i : Nat) : Nat := i * 16000 / 44100

def fracUp (i : Nat) : ℚ :=
  (i : ℚ) * ((16000 : ℚ) / 44100) - (srcIdxUp i : ℚ)

/-- The per-output-index body of `OpusCodec::upsample` (lines 230-248):
as in `downsample`, but the final fallback is the carried
`lastSample`. -/
def upsampleAt (input : List Int) (lastSample : Int) (i : Nat) : Int :=
  let srcIdx := srcIdxUp i
  if srcIdx + 1 < input.length then
    blend (input.getD srcIdx 0) (input.getD (srcIdx + 1) 0) (fracUp i)
  else if srcIdx < input.length then input.getD srcIdx 0
  else lastSample

/-- `outputCount = (size_t)(inputCount / ratio)`, clamped to
`maxOutput` (lines 222-228). -/
def upOutputCount (inputCount maxOutput : Nat) : Nat :=
  min (inputCount * 44100 / 16000) maxOutput

/-- `OpusCodec::upsample`: the emitted samples and the updated
`lastSample` member (lines 250-253: set to the final input sample when
the input is non-empty). -/
def upsample (input : List Int) (maxOutput : Nat) (lastSample : Int) :
    List Int × Int :=
  ((List.range (upOutputCount input.length maxOutput)).map
      (upsampleAt input lastSample),
   if input.length > 0 then input.getD (input.length - 1) 0 else lastSample)




/-! ## OpusCodec encode path (OpusCodec.cpp 74-160) -/

/-- Encoder-side state of `OpusCodec` (OpusCodec.h 66-91):
`encoderInit` models `encoder != nullptr`; the accumulator holds up to
`ACCUMULATOR_SIZE` samples; `encodedPacket`/`encodedPacketSize`/
`packetReady` are the single-packet output buffer. -/
structure Codec where
  encoderInit : Bool
  accumulator : List Int
  packetReady : Bool
  encodedPacket : List Nat
  encodedPacketSize : Nat
  encodedPacketCount : Nat
  deriving DecidableEq, Repr

/-- `downsample(accumulator, RESAMPLE_INPUT_SAMPLES, resampleBuffer,
OPUS_FRAME_SAMPLES)` (line 91). -/
def downsampleFrame (chunk : List Int) : List Int :=
  downsample chunk OPUS_FRAME_SAMPLES

/-- `OpusCodec::encodeFrame` (lines 111-127).  `enc` is the libopus
oracle: `none` models a negative `opus_encode` return (the packet
buffer is left untouched and false is returned), `some bytes` a
successful encode of `bytes.length` bytes into `encodedPacket`. -/
def encodeFrame (enc : List Int → Option (List Nat)) (c : Codec)
    (frame : List Int) : Codec × Bool :=
  match enc frame with
  | none => (c, false)
  | some bytes =>
      ({ c with
         encodedPacket := bytes
         encodedPacketSize := bytes.length
         packetReady := true
         encodedPacketCount := c.encodedPacketCount + 1 }, true)

/-- The `while (accumulatorCount >= RESAMPLE_INPUT_SAMPLES)` loop of
`OpusCodec::addSamples` (lines 88-106): downsample the leading 882
samples, encode, shift the remainder down, and count the successfully
encoded packets.  The loop runs at most once per 882 buffered samples,
so any `fuel ≥ acc.length` makes the fuel recursion equal to the C
loop. -/
def addSamplesLoop (enc : List Int → Option (List Nat)) :
    Nat → List Int → Codec → Nat → List Int × Codec × Nat
  | 0, acc, c, count => (acc, c, count)
  | fuel + 1, acc, c, count =>
      if acc.length ≥ RESAMPLE_INPUT_SAMPLES then
        let r := encodeFrame enc c
          (downsampleFrame (acc.take RESAMPLE_INPUT_SAMPLES))
        addSamplesLoop enc fuel (acc.drop RESAMPLE_INPUT_SAMPLES) r.1
          (if r.2 then count + 1 else count)
      else (acc, c, count)

/-- `OpusCodec::addSamples` (lines 74-109): −1 when the encoder is not
initialized; otherwise copy `min(count, spaceAvailable)` samples into
the accumulator and run the encode loop, returning the number of
packets encoded. -/
def addSamples (enc : List Int → Option (List Nat)) (c : Codec)
    (samples : List Int) : Codec × Int :=
  if ¬c.encoderInit then (c, -1)
  else
    let toCopy := min samples.length (ACCUMULATOR_SIZE - c.accumulator.length)
    let acc := c.accumulator ++ samples.take toCopy
    let r := addSamplesLoop enc acc.length acc c 0
    ({ r.2.1 with accumulator := r.1 }, (r.2.2 : Int))

/-- `OpusCodec::getEncodedPacket` (lines 129-148): 0 when no packet is
ready, −1 when the destination is too small, else the size and bytes,
clearing the ready flag. -/
def getEncodedPacket (c : Codec) (maxSize : Nat) : Codec × Int × List Nat :=
  if ¬c.packetReady ∨ c.encodedPacketSize = 0 then (c, 0, [])
  else if maxSize < c.encodedPacketSize then (c, -1, [])
  else ({ c with packetReady := false, encodedPacketSize := 0 },
        (c.encodedPacketSize : Int), c.encodedPacket.take c.encodedPacketSize)

lemma addSamplesLoop_spec (enc : List Int → Option (List Nat))
    (hall : ∀ f, (enc f).isSome = true) :
    ∀ (fuel : Nat) (acc : List Int) (c : Codec) (count : Nat),
      acc.length ≤ fuel →
      (addSamplesLoop enc fuel acc c count).1 =
        acc.drop (882 * (acc.length / 882)) ∧
      (addSamplesLoop enc fuel acc c count).2.2 =
        count + acc.length / 882 ∧
      (acc.length < 882 → (addSamplesLoop enc fuel acc c count).2.1 = c) ∧
      (882 ≤ acc.length →
        (addSamplesLoop enc fuel acc c count).2.1.packetReady = true ∧
        (addSamplesLoop enc fuel acc c count).2.1.encodedPacket =
          (enc (downsampleFrame
            ((acc.drop (882 * (acc.length / 882 - 1))).take 882))).getD [] ∧
        (addSamplesLoop enc fuel acc c count).2.1.encodedPacketSize =
          ((enc (downsampleFrame
            ((acc.drop (882 * (acc.length / 882 - 1))).take 882))).getD
            []).length) := by
  intro fuel
  induction fuel with
  | zero =>
      intro acc c count hle
      have hnil : acc = [] := List.length_eq_zero.mp (by omega)
      subst hnil
      refine ⟨by simp [addSamplesLoop], by simp [addSamplesLoop],
        fun _ => rfl, fun h => by simp at h⟩
  | succ fuel ih =>
      intro acc c count hle
      by_cases hge : 882 ≤ acc.length
      · obtain ⟨bytes, hbytes⟩ := Option.isSome_iff_exists.mp (hall
          (downsampleFrame (acc.take 882)))
        have hef : encodeFrame enc c (downsampleFrame (acc.take 882)) =
            ({ c with
               encodedPacket := bytes
               encodedPacketSize := bytes.length
               packetReady := true
               encodedPacketCount := c.encodedPacketCount + 1 }, true) := by
          simp [encodeFrame, hbytes]
        have hstep : addSamplesLoop enc (fuel + 1) acc c count =
            addSamplesLoop enc fuel (acc.drop 882)
              { c with
                encodedPacket := bytes
                encodedPacketSize := bytes.length
                packetReady := true
                encodedPacketCount := c.encodedPacketCount + 1 }
              (count + 1) := by
          conv_lhs => unfold addSamplesLoop
          simp only [RESAMPLE_INPUT_SAMPLES]
          rw [if_pos (show acc.length ≥ 882 from hge)]
          simp [hef]
        have hrec := ih (acc.drop 882)
          { c with
            encodedPacket := bytes
            encodedPacketSize := bytes.length
            packetReady := true
            encodedPacketCount := c.encodedPacketCount + 1 }
          (count + 1) (by simp; omega)
        rw [hstep]
        refine ⟨?_, ?_, ?_, ?_⟩
        · rw [hrec.1, List.drop_drop]
          simp only [List.length_drop]
          congr 1
          omega
        · rw [hrec.2.1]
          simp only [List.length_drop]
          omega
        · intro h
          omega
        · intro _
          by_cases h2 : 882 ≤ acc.length - 882
          · have h4 := hrec.2.2.2 (by simp only [List.length_drop]; exact h2)
            have hAB : (List.drop 882 acc).drop
                  (882 * ((List.drop 882 acc).length / 882 - 1)) =
                acc.drop (882 * (acc.length / 882 - 1)) := by
              rw [List.drop_drop]
              simp only [List.length_drop]
              congr 1
              omega
            rw [hAB] at h4
            exact h4
          · have h3 := hrec.2.2.1 (by simp only [List.length_drop]; omega)
            have hq1 : acc.length / 882 = 1 := by omega
            rw [h3, hq1]
            simp [hbytes]
      · have hne : ¬(acc.length ≥ RESAMPLE_INPUT_SAMPLES) := hge
        have hloop : addSamplesLoop enc (fuel + 1) acc c count =
            (acc, c, count) := by
          conv_lhs => unfold addSamplesLoop
          rw [if_neg hne]
        have hq : acc.length / 882 = 0 := Nat.div_eq_of_lt (by omega)
        rw [hloop]
        exact ⟨by simp [hq], by simp [hq], fun _ => rfl,
          fun h => absurd h hge⟩



/-- C4 (amended): at buffer boundaries both resamplers fall back to the
sole remaining input sample when the integer source index is still
inside the input; but past the end of the input only `upsample` emits
the carried `lastSample` — `downsample` (which carries no last sample)
emits 0 there.  `upsample` also updates the carried `lastSample` to the
final input sample after every call with non-empty input. -/
theorem C4_boundary_fallbacks (input : List Int) (lastSample : Int)
    (m i : Nat) :
    (srcIdxUp i + 1 ≥ input.length → srcIdxUp i < input.length →
      upsampleAt input lastSample i = input.getD (srcIdxUp i) 0) ∧
    (srcIdxUp i ≥ input.length →
      upsampleAt input lastSample i = lastSample) ∧
    (srcIdxDown i + 1 ≥ input.length → srcIdxDown i < input.length →
      downsampleAt input i = input.getD (srcIdxDown i) 0) ∧
    (srcIdxDown i ≥ input.length → downsampleAt input i = 0) ∧
    (input ≠ [] →
      (upsample input m lastSample).2 = input.getD (input.length - 1) 0) := by
  refine ⟨?_, ?_, ?_, ?_, ?_⟩
  · intro h1 h2
    unfold upsampleAt
    rw [if_neg (by omega), if_pos h2]
  · intro h1
    unfold upsampleAt
    rw [if_neg (by omega), if_neg (by omega)]
  · intro h1 h2
    unfold downsampleAt
    rw [if_neg (by omega), if_pos h2]
  · intro h1
    unfold downsampleAt
    rw [if_neg (by omega), if_neg (by omega)]
  · intro h1
    unfold upsample
    have : input.length > 0 := List.length_pos.mpr h1
    simp [this]

/-- Witness for `C4_boundary_fallbacks` at concrete inputs. -/
theorem C4_boundary_fallbacks_witness :
    (srcIdxUp 3 + 1 ≥ ([5, 6] : List Int).length ∧
      upsampleAt [5, 6] 9 3 = ([5, 6] : List Int).getD (srcIdxUp 3) 0) ∧
    (srcIdxUp 0 ≥ ([] : List Int).length ∧ upsampleAt [] 9 0 = 9) ∧
    (srcIdxDown 0 ≥ ([] : List Int).length ∧ downsampleAt [] 0 = 0) :=
  ⟨⟨by decide, (C4_boundary_fallbacks [5, 6] 9 0 3).1 (by decide) (by decide)⟩,
   ⟨by decide, (C4_boundary_fallbacks [] 9 0 0).2.1 (by decide)⟩,
   ⟨by decide, (C4_boundary_fallbacks [] 9 0 0).2.2.2.1 (by decide)⟩⟩

/-- C4 counterexample: the claim says that in the downsample resampler
an output index whose source position has no right neighbour falls back
to the last known sample and never to zero.  But `downsample [7] 2`
emits `[7, 0]`: output index 1 has source index 2, past the single
input sample, and the code emits `0` (OpusCodec.cpp line 210) — not the
last known sample 7.  `downsample` carries no last sample at all. -/
theorem C4_counterexample_downsample_zero_fill :
    downsample [7] 2 = [7, 0] ∧ (0 : Int) ≠ 7 := by
  constructor
  · decide
  · decide



/-- C9: the codec buffers at most one encoded packet: after a
`getEncodedPacket` that returns a packet, the ready flag is cleared and
a second `getEncodedPacket` returns 0 (none ready); and when one
`addSamples` call accumulates enough input for one or more frames, the
buffered packet (and its size) afterwards is exactly the encoding of
the **last** processed frame — each newly encoded frame overwrites the
previous one. -/
theorem C9_single_packet_buffer :
    (∀ (c : Codec) (m m2 : Nat),
      0 < (getEncodedPacket c m).2.1 →
      (getEncodedPacket c m).1.packetReady = false ∧
      (getEncodedPacket (getEncodedPacket c m).1 m2).2.1 = 0) ∧
    (∀ (enc : List Int → Option (List Nat)) (c : Codec) (samples : List Int),
      (∀ f, (enc f).isSome = true) → c.encoderInit = true →
      882 ≤ (c.accumulator ++ samples.take (min samples.length
        (ACCUMULATOR_SIZE - c.accumulator.length))).length →
      (addSamples enc c samples).1.packetReady = true ∧
      (addSamples enc c samples).1.encodedPacket =
        (enc (downsampleFrame
          (((c.accumulator ++ samples.take (min samples.length
              (ACCUMULATOR_SIZE - c.accumulator.length))).drop
            (882 * ((c.accumulator ++ samples.take (min samples.length
              (ACCUMULATOR_SIZE - c.accumulator.length))).length / 882 - 1))).take
            882))).getD [] ∧
      (addSamples enc c samples).1.encodedPacketSize =
        ((enc (downsampleFrame
          (((c.accumulator ++ samples.take (min samples.length
              (ACCUMULATOR_SIZE - c.accumulator.length))).drop
            (882 * ((c.accumulator ++ samples.take (min samples.length
              (ACCUMULATOR_SIZE - c.accumulator.length))).length / 882 - 1))).take
            882))).getD []).length) := by
  constructor
  · intro c m m2 hpos
    unfold getEncodedPacket at hpos ⊢
    by_cases h1 : ¬c.packetReady ∨ c.encodedPacketSize = 0
    · rw [if_pos h1] at hpos
      simp at hpos
    · rw [if_neg h1] at hpos ⊢
      by_cases h2 : m < c.encodedPacketSize
      · rw [if_pos h2] at hpos
        simp at hpos
      · rw [if_neg h2] at hpos ⊢
        simp
    
  · intro enc c samples hall hinit hge
    have hun : addSamples enc c samples =
        ({ (addSamplesLoop enc
              (c.accumulator ++ samples.take (min samples.length
                (ACCUMULATOR_SIZE - c.accumulator.length))).length
              (c.accumulator ++ samples.take (min samples.length
                (ACCUMULATOR_SIZE - c.accumulator.length))) c 0).2.1 with
            accumulator := (addSamplesLoop enc
              (c.accumulator ++ samples.take (min samples.length
                (ACCUMULATOR_SIZE - c.accumulator.length))).length
              (c.accumulator ++ samples.take (min samples.length
                (ACCUMULATOR_SIZE - c.accumulator.length))) c 0).1 },
         ((addSamplesLoop enc
              (c.accumulator ++ samples.take (min samples.length
                (ACCUMULATOR_SIZE - c.accumulator.length))).length
              (c.accumulator ++ samples.take (min samples.length
                (ACCUMULATOR_SIZE - c.accumulator.length))) c 0).2.2 : Int)) := by
      unfold addSamples
      rw [if_neg (by simp [hinit])]
    have hspec := addSamplesLoop_spec enc hall
      (c.accumulator ++ samples.take (min samples.length
        (ACCUMULATOR_SIZE - c.accumulator.length))).length
      (c.accumulator ++ samples.take (min samples.length
        (ACCUMULATOR_SIZE - c.accumulator.length))) c 0 le_rfl
    have h4 := hspec.2.2.2 hge
    rw [hun]
    exact ⟨h4.1, h4.2.1, h4.2.2⟩

/-- Witness for `C9_single_packet_buffer` at a concrete codec state and
a 900-sample `addSamples` call. -/
theorem C9_single_packet_buffer_witness :
    (0 < (getEncodedPacket
        { encoderInit := true, accumulator := [], packetReady := true,
          encodedPacket := [1, 2, 3], encodedPacketSize := 3,
          encodedPacketCount := 1 } 8).2.1 ∧
      (getEncodedPacket
        { encoderInit := true, accumulator := [], packetReady := true,
          encodedPacket := [1, 2, 3], encodedPacketSize := 3,
          encodedPacketCount := 1 } 8).1.packetReady = false ∧
      (getEncodedPacket (getEncodedPacket
        { encoderInit := true, accumulator := [], packetReady := true,
          encodedPacket := [1, 2, 3], encodedPacketSize := 3,
          encodedPacketCount := 1 } 8).1 8).2.1 = 0) ∧
    ((addSamples (fun _ => some [7])
        { encoderInit := true, accumulator := [], packetReady := false,
          encodedPacket := [], encodedPacketSize := 0,
          encodedPacketCount := 0 } (List.replicate 900 0)).1.packetReady
      = true) := by
  constructor
  · refine ⟨by decide, ?_⟩
    exact (C9_single_packet_buffer.1
      { encoderInit := true, accumulator := [], packetReady := true,
        encodedPacket := [1, 2, 3], encodedPacketSize := 3,
        encodedPacketCount := 1 } 8 8 (by decide))
  · exact (C9_single_packet_buffer.2 (fun _ => some [7])
      { encoderInit := true, accumulator := [], packetReady := false,
        encodedPacket := [], encodedPacketSize := 0,
        encodedPacketCount := 0 } (List.replicate 900 0)
      (fun _ => rfl) rfl (by decide)).1



/-- C10: with an initialized encoder, `addSamples` copies only
`min(count, ACCUMULATOR_SIZE - accumulatorCount)` input samples (the
conservation equation: final accumulator length plus 882 per encoded
frame equals the old length plus exactly that minimum), returns a
non-negative packet count, and never returns the error value −1 — an
overflow is silently dropped, not reported. -/
theorem C10_overflow_silent_drop (enc : List Int → Option (List Nat))
    (c : Codec) (samples : List Int)
    (hall : ∀ f, (enc f).isSome = true) (hinit : c.encoderInit = true) :
    0 ≤ (addSamples enc c samples).2 ∧
    (addSamples enc c samples).2 ≠ -1 ∧
    (addSamples enc c samples).1.accumulator.length +
        882 * (addSamples enc c samples).2.toNat =
      c.accumulator.length +
        min samples.length (ACCUMULATOR_SIZE - c.accumulator.length) ∧
    (ACCUMULATOR_SIZE - c.accumulator.length < samples.length →
      min samples.length (ACCUMULATOR_SIZE - c.accumulator.length) =
        ACCUMULATOR_SIZE - c.accumulator.length) := by
  have hun : addSamples enc c samples =
      ({ (addSamplesLoop enc
            (c.accumulator ++ samples.take (min samples.length
              (ACCUMULATOR_SIZE - c.accumulator.length))).length
            (c.accumulator ++ samples.take (min samples.length
              (ACCUMULATOR_SIZE - c.accumulator.length))) c 0).2.1 with
          accumulator := (addSamplesLoop enc
            (c.accumulator ++ samples.take (min samples.length
              (ACCUMULATOR_SIZE - c.accumulator.length))).length
            (c.accumulator ++ samples.take (min samples.length
              (ACCUMULATOR_SIZE - c.accumulator.length))) c 0).1 },
       ((addSamplesLoop enc
            (c.accumulator ++ samples.take (min samples.length
              (ACCUMULATOR_SIZE - c.accumulator.length))).length
            (c.accumulator ++ samples.take (min samples.length
              (ACCUMULATOR_SIZE - c.accumulator.length))) c 0).2.2 : Int)) := by
    unfold addSamples
    rw [if_neg (by simp [hinit])]
  have hspec := addSamplesLoop_spec enc hall
    (c.accumulator ++ samples.take (min samples.length
      (ACCUMULATOR_SIZE - c.accumulator.length))).length
    (c.accumulator ++ samples.take (min samples.length
      (ACCUMULATOR_SIZE - c.accumulator.length))) c 0 le_rfl
  rw [hun]
  have hlenacc : (c.accumulator ++ samples.take (min samples.length
      (ACCUMULATOR_SIZE - c.accumulator.length))).length =
      c.accumulator.length +
        min samples.length (ACCUMULATOR_SIZE - c.accumulator.length) := by
    simp [List.length_append, List.length_take]
  refine ⟨by positivity, by omega, ?_, fun h => by omega⟩
  simp only
  rw [hspec.1, hspec.2.1]
  simp only [List.length_drop, Int.toNat_natCast, hlenacc]
  omega

/-- Witness for `C10_overflow_silent_drop`: a full accumulator (1000 of
1024 slots) receiving 100 samples keeps the conservation equation with
only 24 samples admitted. -/
theorem C10_overflow_silent_drop_witness :
    0 ≤ (addSamples (fun _ => some [7])
      { encoderInit := true, accumulator := List.replicate 1000 0,
        packetReady := false, encodedPacket := [], encodedPacketSize := 0,
        encodedPacketCount := 0 } (List.replicate 100 0)).2 ∧
    (addSamples (fun _ => some [7])
      { encoderInit := true, accumulator := List.replicate 1000 0,
        packetReady := false, encodedPacket := [], encodedPacketSize := 0,
        encodedPacketCount := 0 } (List.replicate 100 0)).1.accumulator.length +
      882 * (addSamples (fun _ => some [7])
        { encoderInit := true, accumulator := List.replicate 1000 0,
          packetReady := false, encodedPacket := [], encodedPacketSize := 0,
          encodedPacketCount := 0 } (List.replicate 100 0)).2.toNat =
      (List.replicate (1000 : Nat) (0 : Int)).length +
        min (List.replicate (100 : Nat) (0 : Int)).length
          (ACCUMULATOR_SIZE - (List.replicate (1000 : Nat) (0 : Int)).length) := by
  have h := C10_overflow_silent_drop (fun _ => some [7])
    { encoderInit := true, accumulator := List.replicate 1000 0,
      packetReady := false, encodedPacket := [], encodedPacketSize := 0,
      encodedPacketCount := 0 } (List.replicate 100 0)
    (fun _ => rfl) rfl
  exact ⟨h.1, h.2.2.1⟩




/-! ## PlaybackEngine (PlaybackEngine.cpp) -/

inductive PlaybackState where
  | idle
  | playing
  | paused
  deriving DecidableEq, Repr

/-- The state of `PlaybackEngine` (PlaybackEngine.h).  `fileList`
holds the CONTENTS of the queued container files (the source stores
their names and reads them through the SD card, modelled here as the
composed name→bytes oracle); `fileOpen`/`fileBytes`/`filePos` model the
`currentFile` handle; `playbackStartTime` is the wall-clock bookkeeping
field set from `millis()`. -/
structure PB where
  state : PlaybackState
  fileList : List (List Nat)
  currentFileIndex : Nat
  fileOpen : Bool
  fileBytes : List Nat
  filePos : Nat
  playbackStartTime : Nat
  totalPackets : Nat
  packetsPlayed : Nat
  outputBuffer : List Int
  outputBufferPos : Nat
  outputBufferCount : Nat
  deriving DecidableEq, Repr

/-- The `PlaybackEngine` constructor followed by `loadChannelQueue`
delivering `files` (an empty channel is the empty list; sorting is by
name, outside this model's claims). -/
def mkPB (files : List (List Nat)) : PB :=
  { state := .idle
    fileList := files
    currentFileIndex := 0
    fileOpen := false
    fileBytes := []
    filePos := 0
    playbackStartTime := 0
    totalPackets := 0
    packetsPlayed := 0
    outputBuffer := []
    outputBufferPos := 0
    outputBufferCount := 0 }

/-- The 6-byte container header written once at recording start:
`{'O','P','U','S', 0x01, 0x00}` (RecordingEngine.cpp line 146). -/
def containerHeader : List Nat := [79, 80, 85, 83, 1, 0]

/-- The packet-count scan loop in `PlaybackEngine::openNextFile`
(lines 189-217): while bytes remain, read a 2-byte little-endian size
(break when fewer than 2 bytes remain), break on a zero or over-maximum
size, seek past the payload (break when the seek passes end of file),
and count.  The loop advances at least 3 bytes per iteration, so any
`fuel ≥ bytes.length - pos` makes the fuel recursion equal to the C
loop. -/
def countPacketsAux (bytes : List Nat) : Nat → Nat → Nat → Nat
  | 0, _, acc => acc
  | fuel + 1, pos, acc =>
      if pos < bytes.length then
        if pos + 2 ≤ bytes.length then
          if bytes.getD pos 0 + 256 * bytes.getD (pos + 1) 0 = 0 ∨
              bytes.getD pos 0 + 256 * bytes.getD (pos + 1) 0 >
                OPUS_MAX_PACKET_SIZE then acc
          else if pos + 2 +
              (bytes.getD pos 0 + 256 * bytes.getD (pos + 1) 0) ≤
              bytes.length then
            countPacketsAux bytes fuel
              (pos + 2 + (bytes.getD pos 0 + 256 * bytes.getD (pos + 1) 0))
              (acc + 1)
          else acc
        else acc
      else acc

/-- The scan entered at the position just after the 6 header bytes. -/
def countPackets (bytes : List Nat) : Nat :=
  countPacketsAux bytes bytes.length 6 0

/-- `PlaybackEngine::openNextFile` (lines 132-229): fail past the end
of the queue, on a failed open, on a short header read, or on a magic
mismatch (only `header[0..3]` is compared against ASCII `"OPUS"`; the
version bytes are not checked); on success record the packet count and
rewind to the first packet offset 6. -/
def openNextFile (s : PB) : Option PB :=
  if s.currentFileIndex ≥ s.fileList.length then none
  else
    let bytes := s.fileList.getD s.currentFileIndex []
    if bytes.length < 6 then none
    else if bytes.getD 0 0 = 79 ∧ bytes.getD 1 0 = 80 ∧
        bytes.getD 2 0 = 85 ∧ bytes.getD 3 0 = 83 then
      some { s with
        fileOpen := true
        fileBytes := bytes
        filePos := 6
        packetsPlayed := 0
        outputBufferPos := 0
        outputBufferCount := 0
        totalPackets := countPackets bytes }
    else none

/-- `PlaybackEngine::startPlayback` (lines 114-130). -/
def startPlayback (now : Nat) (s : PB) : Option PB :=
  if s.fileList.length = 0 then none
  else
    match openNextFile s with
    | none => none
    | some s2 => some { s2 with state := .playing, playbackStartTime := now }

/-- `PlaybackEngine::stopPlayback` (lines 259-272): close the file and
go Idle; `packetsPlayed` is NOT cleared. -/
def stopPlayback (s : PB) : PB :=
  { s with
    state := .idle
    fileOpen := false
    outputBufferPos := 0
    outputBufferCount := 0 }

/-- `PlaybackEngine::pausePlayback` (lines 274-283). -/
def pausePlayback (s : PB) : PB × Bool :=
  if s.state = .playing then ({ s with state := .paused }, true)
  else (s, false)

/-- `PlaybackEngine::getPlaybackPosition` (lines 475-491): position is
packets-played × `OPUS_FRAME_MS` while Playing or Paused and 0 when
Idle; the function never reads the clock (it takes no time input). -/
def getPlaybackPosition (s : PB) : Nat :=
  match s.state with
  | .playing => s.packetsPlayed * OPUS_FRAME_MS
  | .paused => s.packetsPlayed * OPUS_FRAME_MS
  | .idle => 0

/-- `PlaybackEngine::resumePlayback` (lines 285-295): the source sets
`state = PLAYING` first and then recomputes `playbackStartTime` from
`getPlaybackPosition()`, which is why the position is taken in the
Playing state here. -/
def resumePlayback (now : Nat) (s : PB) : PB × Bool :=
  if s.state = .paused then
    ({ s with
       state := .playing
       playbackStartTime := now - getPlaybackPosition { s with state := .playing } },
     true)
  else (s, false)

/-- `PlaybackEngine::skipToNext` (lines 297-327): delete the current
file (removal from storage; the model keeps the queue entry and only
advances the index, as the source does), then open the next queued file
or stop. -/
def skipToNext (now : Nat) (s : PB) : PB × Bool :=
  let s1 := { s with
    fileOpen := false
    currentFileIndex := s.currentFileIndex + 1 }
  if s1.currentFileIndex ≥ s1.fileList.length then (stopPlayback s1, false)
  else
    match openNextFile s1 with
    | none => (stopPlayback s1, false)
    | some s2 => ({ s2 with playbackStartTime := now }, true)

/-- `PlaybackEngine::readPacket` (lines 432-461).  On failure the
callers (`decodeAndBuffer` → `skipToNext`/`stopPlayback`) immediately
close and delete the file, so the file-position side effects of a
failed partial read are unobservable and the failure is modelled as a
plain `none`. -/
def readPacket (s : PB) : Option (List Nat × Nat) :=
  if ¬s.fileOpen then none
  else if ¬(s.filePos < s.fileBytes.length) then none
  else if s.filePos + 2 > s.fileBytes.length then none
  else
    let size := s.fileBytes.getD s.filePos 0 +
      256 * s.fileBytes.getD (s.filePos + 1) 0
    if size = 0 ∨ size > OPUS_MAX_PACKET_SIZE then none
    else if s.filePos + 2 + size > s.fileBytes.length then none
    else some ((s.fileBytes.drop (s.filePos + 2)).take size,
      s.filePos + 2 + size)

/-- `PlaybackEngine::decodeAndBuffer` (lines 397-430).  `dec` is the
libopus decode(+upsample) oracle: `none` models a decode error
(`samples <= 0`), `some samples` a successful decode into
`outputBuffer`. -/
def decodeAndBuffer (dec : List Nat → Option (List Int)) (s : PB) :
    Option PB :=
  match readPacket s with
  | none => none
  | some (pkt, newPos) =>
      match dec pkt with
      | none => none
      | some samples =>
          if samples.length = 0 then none
          else some { s with
            filePos := newPos
            outputBuffer := samples
            outputBufferCount := samples.length
            outputBufferPos := 0
            packetsPlayed := s.packetsPlayed + 1 }

/-- `k` successive `decodeAndBuffer` calls (sequential decoding). -/
def iterDecode (dec : List Nat → Option (List Int)) : Nat → PB → Option PB
  | 0, s => some s
  | k + 1, s =>
      match decodeAndBuffer dec s with
      | none => none
      | some s2 => iterDecode dec k s2

/-- The feed loop of `PlaybackEngine::processPlayback` (lines
351-392): `while (playQueue->available() && loopCount < 10)`, each
iteration either copies one block out of the residual decoded buffer
(`emitted` counts the `playBuffer()` calls; the copied samples and zero
padding live in the sink) or decodes one packet (`decoded`), falling to
`skipToNext` at end of file.  `left = 10 - loopCount` is the remaining
iteration budget, making the recursion structural; `avail` is the sink
availability oracle indexed by iteration, and the instrumentation
counters `loopCount`/`emitted`/`decoded` carry no behavior. -/
def ppLoopAux (avail : Nat → Bool) (dec : List Nat → Option (List Int))
    (now : Nat) : Nat → Nat → PB → Nat → Nat → PB × Bool × Nat × Nat × Nat
  | 0, loopCount, s, emitted, decoded => (s, true, loopCount, emitted, decoded)
  | left + 1, loopCount, s, emitted, decoded =>
      if avail loopCount then
        if s.outputBufferPos < s.outputBufferCount then
          let toCopy := min AUDIO_BLOCK_SAMPLES
            (s.outputBufferCount - s.outputBufferPos)
          ppLoopAux avail dec now left (loopCount + 1)
            { s with outputBufferPos := s.outputBufferPos + toCopy }
            (emitted + 1) decoded
        else
          match decodeAndBuffer dec s with
          | some s2 =>
              ppLoopAux avail dec now left (loopCount + 1) s2 emitted
                (decoded + 1)
          | none =>
              let r := skipToNext now s
              if r.2 = false then (r.1, false, loopCount + 1, emitted, decoded)
              else ppLoopAux avail dec now left (loopCount + 1) r.1 emitted
                decoded
      else (s, true, loopCount, emitted, decoded)

/-- `PlaybackEngine::processPlayback` (lines 343-395): no-op unless
Playing, else the capped feed loop.  Returns the new state, the C
return value, and the instrumentation counters (iterations, blocks
emitted, packets decoded). -/
def processPlayback (avail : Nat → Bool) (dec : List Nat → Option (List Int))
    (now : Nat) (s : PB) : PB × Bool × Nat × Nat × Nat :=
  if s.state ≠ .playing then (s, false, 0, 0, 0)
  else ppLoopAux avail dec now 10 0 s 0 0

/-- States reachable through the public `PlaybackEngine` operations
(over all sink/decoder oracle behaviors). -/
inductive Reachable : PB → Prop where
  | init : ∀ files, Reachable (mkPB files)
  | start : ∀ s now s2, Reachable s → startPlayback now s = some s2 →
      Reachable s2
  | proc : ∀ s avail dec now, Reachable s →
      Reachable (processPlayback avail dec now s).1
  | pause : ∀ s, Reachable s → Reachable (pausePlayback s).1
  | resume : ∀ s now, Reachable s → Reachable (resumePlayback now s).1
  | stop : ∀ s, Reachable s → Reachable (stopPlayback s)
  | skip : ∀ s now, Reachable s → Reachable (skipToNext now s).1



/-- One `[u16 length LE][payload]` packet record as written by
`RecordingEngine::writePacket` (lines 208-237). -/
def encodePacket (p : List Nat) : List Nat :=
  (p.length % 256) :: (p.length / 256 % 256) :: p

/-- A sequence of packet records. -/
def encodePackets (ps : List (List Nat)) : List Nat :=
  (ps.map encodePacket).flatten

/-- A well-formed container file: header then packet records. -/
def containerBytes (ps : List (List Nat)) : List Nat :=
  containerHeader ++ encodePackets ps

lemma encodePackets_cons (p : List Nat) (ps : List (List Nat)) :
    encodePackets (p :: ps) = encodePacket p ++ encodePackets ps := by
  simp [encodePackets]

lemma countPacketsAux_succ (bytes : List Nat) (fuel pos acc : Nat) :
    countPacketsAux bytes (fuel + 1) pos acc =
      if pos < bytes.length then
        if pos + 2 ≤ bytes.length then
          if bytes.getD pos 0 + 256 * bytes.getD (pos + 1) 0 = 0 ∨
              bytes.getD pos 0 + 256 * bytes.getD (pos + 1) 0 >
                OPUS_MAX_PACKET_SIZE then acc
          else if pos + 2 +
              (bytes.getD pos 0 + 256 * bytes.getD (pos + 1) 0) ≤
              bytes.length then
            countPacketsAux bytes fuel
              (pos + 2 + (bytes.getD pos 0 + 256 * bytes.getD (pos + 1) 0))
              (acc + 1)
          else acc
        else acc
      else acc := rfl

lemma countPacketsAux_container :
    ∀ (packets : List (List Nat)) (pre : List Nat) (acc fuel : Nat),
      (∀ p ∈ packets, 1 ≤ p.length ∧ p.length ≤ OPUS_MAX_PACKET_SIZE) →
      (pre ++ encodePackets packets).length - pre.length ≤ fuel →
      countPacketsAux (pre ++ encodePackets packets) fuel pre.length acc =
        acc + packets.length := by
  intro packets
  induction packets with
  | nil =>
      intro pre acc fuel hsz hfuel
      cases fuel with
      | zero => simp [countPacketsAux, encodePackets]
      | succ f =>
          have hlt : ¬(pre.length < (pre ++ encodePackets []).length) := by
            simp [encodePackets]
          rw [countPacketsAux_succ, if_neg hlt]
          simp [encodePackets]
  | cons p ps ih =>
      intro pre acc fuel hsz hfuel
      have hp := hsz p (List.mem_cons_self _ _)
      have hlenc : (encodePackets (p :: ps)).length =
          2 + p.length + (encodePackets ps).length := by
        rw [encodePackets_cons]
        simp [encodePacket]
        omega
      have hfl : (pre ++ encodePackets (p :: ps)).length =
          pre.length + 2 + p.length + (encodePackets ps).length := by
        simp [hlenc]
        omega
      cases fuel with
      | zero => omega
      | succ f =>
          have h1 : pre.length < (pre ++ encodePackets (p :: ps)).length := by
            omega
          have h2 : pre.length + 2 ≤
              (pre ++ encodePackets (p :: ps)).length := by omega
          have hsplit : pre ++ encodePackets (p :: ps) =
              pre ++ (encodePacket p ++ encodePackets ps) := by
            rw [encodePackets_cons]
          have hg0 : (pre ++ encodePackets (p :: ps)).getD pre.length 0 =
              p.length % 256 := by
            rw [hsplit, List.getD_append_right _ _ _ _ (le_refl _)]
            simp [encodePacket]
          have hg1 : (pre ++ encodePackets (p :: ps)).getD
              (pre.length + 1) 0 = p.length / 256 % 256 := by
            rw [hsplit, List.getD_append_right _ _ _ _ (by omega)]
            have he : pre.length + 1 - pre.length = 1 := by omega
            rw [he]
            simp [encodePacket]
          have hsize : (pre ++ encodePackets (p :: ps)).getD pre.length 0 +
              256 * (pre ++ encodePackets (p :: ps)).getD
                (pre.length + 1) 0 = p.length := by
            rw [hg0, hg1]
            unfold OPUS_MAX_PACKET_SIZE at hp
            omega
          have hnz : ¬(p.length = 0 ∨ p.length > OPUS_MAX_PACKET_SIZE) := by
            unfold OPUS_MAX_PACKET_SIZE at hp ⊢
            omega
          have h3 : pre.length + 2 + p.length ≤
              (pre ++ encodePackets (p :: ps)).length := by omega
          rw [countPacketsAux_succ, if_pos h1, if_pos h2, hsize,
            if_neg hnz, if_pos h3]
          have hre : pre ++ encodePackets (p :: ps) =
              (pre ++ encodePacket p) ++ encodePackets ps := by
            rw [encodePackets_cons, List.append_assoc]
          have hple : (pre ++ encodePacket p).length =
              pre.length + 2 + p.length := by
            simp [encodePacket]
            omega
          have heps : ((pre ++ encodePacket p) ++ encodePackets ps).length =
              pre.length + 2 + p.length + (encodePackets ps).length := by
            rw [← hre, hfl]
          have hIH := ih (pre ++ encodePacket p) (acc + 1) f
            (fun q hq => hsz q (List.mem_cons_of_mem _ hq))
            (by rw [heps, hple]; omega)
          rw [hple] at hIH
          rw [hre, hIH]
          simp
          omega

lemma countPackets_container (packets : List (List Nat))
    (hsz : ∀ p ∈ packets, 1 ≤ p.length ∧ p.length ≤ OPUS_MAX_PACKET_SIZE) :
    countPackets (containerBytes packets) = packets.length := by
  unfold countPackets containerBytes
  have h6 : containerHeader.length = 6 := by decide
  have h := countPacketsAux_container packets containerHeader 0
    (containerHeader ++ encodePackets packets).length hsz (by omega)
  rw [h6] at h
  rw [h]
  omega



lemma readPacket_at (s : PB) (pre p post : List Nat)
    (hopen : s.fileOpen = true)
    (hbytes : s.fileBytes = pre ++ encodePacket p ++ post)
    (hpos : s.filePos = pre.length)
    (hp : 1 ≤ p.length ∧ p.length ≤ OPUS_MAX_PACKET_SIZE) :
    readPacket s = some (p, pre.length + 2 + p.length) := by
  have hlen : s.fileBytes.length =
      pre.length + 2 + p.length + post.length := by
    simp [hbytes, encodePacket]
    omega
  have hg0 : s.fileBytes.getD s.filePos 0 = p.length % 256 := by
    rw [hbytes, hpos, List.append_assoc,
      List.getD_append_right _ _ _ _ (le_refl _)]
    simp [encodePacket]
  have hg1 : s.fileBytes.getD (s.filePos + 1) 0 = p.length / 256 % 256 := by
    rw [hbytes, hpos, List.append_assoc,
      List.getD_append_right _ _ _ _ (by omega)]
    have he : pre.length + 1 - pre.length = 1 := by omega
    rw [he]
    simp [encodePacket]
  have hsize : s.fileBytes.getD s.filePos 0 +
      256 * s.fileBytes.getD (s.filePos + 1) 0 = p.length := by
    rw [hg0, hg1]
    unfold OPUS_MAX_PACKET_SIZE at hp
    omega
  have hdata : (s.fileBytes.drop (s.filePos + 2)).take p.length = p := by
    have hsplit : s.fileBytes = (pre ++ [p.length % 256,
        p.length / 256 % 256]) ++ (p ++ post) := by
      rw [hbytes]
      simp [encodePacket]
    have hlen2 : (pre ++ [p.length % 256, p.length / 256 % 256]).length =
        s.filePos + 2 := by
      simp [hpos]
    rw [hsplit, ← hlen2, List.drop_left]
    exact List.take_left' rfl
  unfold readPacket
  rw [if_neg (by simp [hopen])]
  rw [if_neg (by push_neg; rw [hpos]; unfold OPUS_MAX_PACKET_SIZE at hp; omega)]
  rw [if_neg (by rw [hpos]; unfold OPUS_MAX_PACKET_SIZE at hp; omega)]
  rw [hsize]
  rw [if_neg (by unfold OPUS_MAX_PACKET_SIZE at hp ⊢; omega)]
  rw [if_neg (by rw [hpos]; unfold OPUS_MAX_PACKET_SIZE at hp; omega)]
  rw [hdata, hpos]



lemma iterDecode_container (dec : List Nat → Option (List Int)) :
    ∀ (ps : List (List Nat)) (pre : List Nat) (s : PB),
      (∀ p ∈ ps, 1 ≤ p.length ∧ p.length ≤ OPUS_MAX_PACKET_SIZE) →
      (∀ p ∈ ps, ∃ l, dec p = some l ∧ l ≠ []) →
      s.fileOpen = true →
      s.fileBytes = pre ++ encodePackets ps →
      s.filePos = pre.length →
      ∃ s2, iterDecode dec ps.length s = some s2 ∧
        s2.packetsPlayed = s.packetsPlayed + ps.length ∧
        s2.state = s.state ∧
        s2.fileOpen = true ∧
        s2.fileBytes = s.fileBytes ∧
        s2.filePos = s.fileBytes.length ∧
        s2.totalPackets = s.totalPackets := by
  intro ps
  induction ps with
  | nil =>
      intro pre s hsz hdec hopen hbytes hpos
      refine ⟨s, rfl, by simp, rfl, hopen, rfl, ?_, rfl⟩
      rw [hbytes, hpos]
      simp [encodePackets]
  | cons p ps ih =>
      intro pre s hsz hdec hopen hbytes hpos
      obtain ⟨l, hl, hlne⟩ := hdec p (List.mem_cons_self _ _)
      have hbytes2 : s.fileBytes = pre ++ encodePacket p ++ encodePackets ps := by
        rw [hbytes, encodePackets_cons, List.append_assoc]
      have hrp := readPacket_at s pre p (encodePackets ps) hopen hbytes2 hpos
        (hsz p (List.mem_cons_self _ _))
      have hdb : decodeAndBuffer dec s = some { s with
          filePos := pre.length + 2 + p.length
          outputBuffer := l
          outputBufferCount := l.length
          outputBufferPos := 0
          packetsPlayed := s.packetsPlayed + 1 } := by
        simp [decodeAndBuffer, hrp, hl, hlne]
      have hstep : iterDecode dec (p :: ps).length s =
          iterDecode dec ps.length { s with
            filePos := pre.length + 2 + p.length
            outputBuffer := l
            outputBufferCount := l.length
            outputBufferPos := 0
            packetsPlayed := s.packetsPlayed + 1 } := by
        show iterDecode dec (ps.length + 1) s = _
        rw [show iterDecode dec (ps.length + 1) s =
          (match decodeAndBuffer dec s with
           | none => none
           | some s2 => iterDecode dec ps.length s2) from rfl]
        rw [hdb]
      obtain ⟨s2, h1, h2, h3, h4, h5, h6, h7⟩ := ih (pre ++ encodePacket p)
        { s with
          filePos := pre.length + 2 + p.length
          outputBuffer := l
          outputBufferCount := l.length
          outputBufferPos := 0
          packetsPlayed := s.packetsPlayed + 1 }
        (fun q hq => hsz q (List.mem_cons_of_mem _ hq))
        (fun q hq => hdec q (List.mem_cons_of_mem _ hq))
        (by simp [hopen])
        (by simp [hbytes2, List.append_assoc])
        (by simp [encodePacket]; omega)
      refine ⟨s2, ?_, ?_, ?_, h4, ?_, ?_, ?_⟩
      · rw [hstep, h1]
      · rw [h2]; simp; omega
      · rw [h3]
      · rw [h5]
      · rw [h6]
      · rw [h7]



lemma ppLoopAux_succ (avail : Nat → Bool)
    (dec : List Nat → Option (List Int)) (now : Nat)
    (left loopCount : Nat) (s : PB) (em de : Nat) :
    ppLoopAux avail dec now (left + 1) loopCount s em de =
      (if avail loopCount then
        if s.outputBufferPos < s.outputBufferCount then
          ppLoopAux avail dec now left (loopCount + 1)
            { s with outputBufferPos := s.outputBufferPos + min AUDIO_BLOCK_SAMPLES (s.outputBufferCount - s.outputBufferPos) }
            (em + 1) de
        else
          match decodeAndBuffer dec s with
          | some s2 =>
              ppLoopAux avail dec now left (loopCount + 1) s2 em (de + 1)
          | none =>
              if (skipToNext now s).2 = false then
                ((skipToNext now s).1, false, loopCount + 1, em, de)
              else
                ppLoopAux avail dec now left (loopCount + 1)
                  (skipToNext now s).1 em de
      else (s, true, loopCount, em, de)) := rfl

lemma ppLoopAux_bound (avail : Nat → Bool) (dec : List Nat → Option (List Int))
    (now : Nat) :
    ∀ (left loopCount : Nat) (s : PB) (em de : Nat),
      loopCount ≤ (ppLoopAux avail dec now left loopCount s em de).2.2.1 ∧
      (ppLoopAux avail dec now left loopCount s em de).2.2.1 ≤
        loopCount + left ∧
      (ppLoopAux avail dec now left loopCount s em de).2.2.2.1 +
          (ppLoopAux avail dec now left loopCount s em de).2.2.2.2 ≤
        em + de +
          ((ppLoopAux avail dec now left loopCount s em de).2.2.1 -
            loopCount) := by
  intro left
  induction left with
  | zero =>
      intro loopCount s em de
      simp [ppLoopAux]
  | succ left ih =>
      intro loopCount s em de
      rw [ppLoopAux_succ]
      by_cases hav : avail loopCount
      · rw [if_pos hav]
        by_cases hbuf : s.outputBufferPos < s.outputBufferCount
        · rw [if_pos hbuf]
          have h := ih (loopCount + 1)
            { s with outputBufferPos := s.outputBufferPos + min AUDIO_BLOCK_SAMPLES (s.outputBufferCount - s.outputBufferPos) }
            (em + 1) de
          exact ⟨by omega, by omega, by omega⟩
        · rw [if_neg hbuf]
          cases hdb : decodeAndBuffer dec s with
          | some s2 =>
              simp only
              have h := ih (loopCount + 1) s2 em (de + 1)
              exact ⟨by omega, by omega, by omega⟩
          | none =>
              simp only
              by_cases hsk : (skipToNext now s).2 = false
              · rw [if_pos hsk]
                refine ⟨?_, ?_, ?_⟩ <;> simp
              · rw [if_neg hsk]
                have h := ih (loopCount + 1) (skipToNext now s).1 em de
                exact ⟨by omega, by omega, by omega⟩
      · rw [if_neg hav]
        refine ⟨?_, ?_, ?_⟩ <;> simp
/-- C8: one call to `processPlayback` performs at most 10 feed-loop
iterations regardless of the sink availability oracle and the decode
oracle, and each iteration emits at most one output block or decodes at
most one packet: the number of blocks emitted plus the number of packets
decoded is bounded by the iteration count.  The loop is total by
construction (structural recursion on the remaining iteration budget),
so the call always terminates in bounded work. -/
theorem C8_feed_loop_bounded (avail : Nat → Bool)
    (dec : List Nat → Option (List Int)) (now : Nat) (s : PB) :
    (processPlayback avail dec now s).2.2.1 ≤ 10 ∧
    (processPlayback avail dec now s).2.2.2.1 +
        (processPlayback avail dec now s).2.2.2.2 ≤
      (processPlayback avail dec now s).2.2.1 := by
  unfold processPlayback
  by_cases hst : s.state ≠ .playing
  · rw [if_pos hst]
    simp
  · rw [if_neg hst]
    have h := ppLoopAux_bound avail dec now 10 0 s 0 0
    exact ⟨by omega, by omega⟩



lemma list_len6 {l : List Nat} (h : 6 ≤ l.length) :
    ∃ a b c d e f rest, l = a :: b :: c :: d :: e :: f :: rest := by
  match l, h with
  | a :: b :: c :: d :: e :: f :: rest, _ =>
      exact ⟨a, b, c, d, e, f, rest, rfl⟩

/-- C5 (amended): opening a file for playback succeeds iff at least 6
header bytes can be read and the first 4 bytes are the ASCII magic
`"OPUS"`; the 2 version bytes written by the recorder are read but
never validated. -/
theorem C5_header_magic_only (s : PB)
    (h : s.currentFileIndex < s.fileList.length) :
    (openNextFile s).isSome = true ↔
      6 ≤ (s.fileList.getD s.currentFileIndex []).length ∧
      (s.fileList.getD s.currentFileIndex []).take 4 =
        containerHeader.take 4 := by
  unfold openNextFile
  rw [if_neg (by omega)]
  by_cases hlen : (s.fileList.getD s.currentFileIndex []).length < 6
  · rw [if_pos hlen]
    constructor
    · intro hfalse
      simp at hfalse
    · intro hconj
      exact absurd hconj.1 (by omega)
  · rw [if_neg hlen]
    obtain ⟨a, b, c, d, e, f, rest, hl⟩ := list_len6 (l :=
      s.fileList.getD s.currentFileIndex []) (by omega)
    rw [hl]
    by_cases hm : a = 79 ∧ b = 80 ∧ c = 85 ∧ d = 83
    · rw [if_pos (by simp [List.getD, hm.1, hm.2.1, hm.2.2.1, hm.2.2.2])]
      simp [hm.1, hm.2.1, hm.2.2.1, hm.2.2.2, containerHeader]
    · rw [if_neg (by simpa [List.getD] using hm)]
      constructor
      · intro hfalse
        simp at hfalse
      · intro hconj
        apply absurd _ hm
        have ht := hconj.2
        simp [containerHeader] at ht
        exact ⟨ht.1, ht.2.1, ht.2.2.1, ht.2.2.2⟩

/-- Witness for `C5_header_magic_only`: a queue holding one file with a
correct magic and the recorder version bytes. -/
theorem C5_header_magic_only_witness :
    (openNextFile (mkPB [[79, 80, 85, 83, 1, 0, 1, 0, 9]])).isSome = true ↔
      6 ≤ ([79, 80, 85, 83, 1, 0, 1, 0, 9] : List Nat).length ∧
      ([79, 80, 85, 83, 1, 0, 1, 0, 9] : List Nat).take 4 =
        containerHeader.take 4 :=
  C5_header_magic_only (mkPB [[79, 80, 85, 83, 1, 0, 1, 0, 9]]) (by decide)

/-- C5 counterexample: the claim says open succeeds iff all six header
bytes match the constant written at recording start (`"OPUS"` 0x01
0x00), any mismatch failing the open.  But a file whose 6-byte header is
`"OPUS"` 0xFF 0xFF — version bytes differing from the recorded header —
opens successfully: `PlaybackEngine::openNextFile` checks only
`header[0..3]` (PlaybackEngine.cpp line 168) and never the version
bytes. -/
theorem C5_counterexample_version_bytes_ignored :
    (openNextFile (mkPB [[79, 80, 85, 83, 0xFF, 0xFF, 1, 0, 9]])).isSome
      = true ∧
    ([79, 80, 85, 83, 0xFF, 0xFF, 1, 0, 9] : List Nat).take 6 ≠
      containerHeader := by
  decide



/-- C6 (amended): in the Playing and Paused states the reported position
is exactly packets-played × 20 ms, and it does not depend on the
wall-clock bookkeeping field (`playbackStartTime`) at all; in the Idle
state 0 is reported.  For any valid container file with N packets
(header + size-prefixed packets of 1..256 bytes, each packet decoding
successfully to a non-empty sample buffer), the scan at open counts
exactly N packets, sequential decoding succeeds exactly N times, after
which the position reads N × 20 ms and the next decode fails (file
exhausted). -/
theorem C6_position_from_packets (s : PB) (t : Nat)
    (packets : List (List Nat)) (dec : List Nat → Option (List Int)) :
    (s.state = .playing ∨ s.state = .paused →
      getPlaybackPosition s = s.packetsPlayed * OPUS_FRAME_MS) ∧
    (s.state = .idle → getPlaybackPosition s = 0) ∧
    (getPlaybackPosition { s with playbackStartTime := t } =
      getPlaybackPosition s) ∧
    ((∀ p ∈ packets, 1 ≤ p.length ∧ p.length ≤ OPUS_MAX_PACKET_SIZE) →
      (∀ p ∈ packets, ∃ l, dec p = some l ∧ l ≠ []) →
      s.fileOpen = true → s.fileBytes = containerBytes packets →
      s.filePos = 6 → s.packetsPlayed = 0 → s.state = .playing →
      countPackets (containerBytes packets) = packets.length ∧
      ∃ s2, iterDecode dec packets.length s = some s2 ∧
        s2.packetsPlayed = packets.length ∧
        getPlaybackPosition s2 = packets.length * OPUS_FRAME_MS ∧
        decodeAndBuffer dec s2 = none) := by
  refine ⟨?_, ?_, ?_, ?_⟩
  · intro hst
    rcases hst with h | h <;> simp [getPlaybackPosition, h]
  · intro hst
    simp [getPlaybackPosition, hst]
  · cases hst : s.state <;> simp [getPlaybackPosition, hst]
  · intro hsz hdec hopen hbytes hpos hpp hplay
    refine ⟨countPackets_container packets hsz, ?_⟩
    have hpre : s.fileBytes = containerHeader ++ encodePackets packets := hbytes
    have hpos6 : s.filePos = containerHeader.length := by
      rw [hpos]; decide
    obtain ⟨s2, h1, h2, h3, h4, h5, h6, h7⟩ :=
      iterDecode_container dec packets containerHeader s hsz hdec hopen
        hpre hpos6
    refine ⟨s2, h1, by rw [h2, hpp]; omega, ?_, ?_⟩
    · rw [show getPlaybackPosition s2 = s2.packetsPlayed * OPUS_FRAME_MS from
        by simp [getPlaybackPosition, h3, hplay]]
      rw [h2, hpp]
      simp
    · have hrp : readPacket s2 = none := by
        unfold readPacket
        rw [if_neg (by simp [h4])]
        rw [if_pos (show ¬(s2.filePos < s2.fileBytes.length) from by
          rw [h6, h5]; omega)]
      unfold decodeAndBuffer
      rw [hrp]

/-- Witness for `C6_position_from_packets`: a concrete 2-packet
container decoded to completion. -/
theorem C6_position_from_packets_witness :
    (countPackets (containerBytes [[17], [3, 4]]) = 2 ∧
      ∃ s2, iterDecode (fun _ => some [5]) 2
          ({ mkPB [containerBytes [[17], [3, 4]]] with
            state := .playing
            fileOpen := true
            fileBytes := containerBytes [[17], [3, 4]]
            filePos := 6 }) = some s2 ∧
        s2.packetsPlayed = 2 ∧
        getPlaybackPosition s2 = 2 * OPUS_FRAME_MS ∧
        decodeAndBuffer (fun _ => some [5]) s2 = none) := by
  have h := (C6_position_from_packets
    ({ mkPB [containerBytes [[17], [3, 4]]] with
      state := .playing
      fileOpen := true
      fileBytes := containerBytes [[17], [3, 4]]
      filePos := 6 }) 0 [[17], [3, 4]] (fun _ => some [5])).2.2.2
  exact h (by decide) (fun p _ => ⟨[5], rfl, by decide⟩) rfl rfl rfl rfl rfl

def pbC6file : List Nat := containerHeader ++ [1, 0, 17]

def pbC6start : PB :=
  (startPlayback 0 (mkPB [pbC6file])).getD (mkPB [pbC6file])

def pbC6end : PB :=
  (processPlayback (fun _ => true) (fun _ => some [5]) 0 pbC6start).1

/-- C6 counterexample: the claim says the reported position equals
packets-played × 20 ms in every reachable playback state.  But the state
reached by loading a one-packet file, starting playback, and running one
`processPlayback` tick to completion (the engine deletes the file and
transitions to Idle via `stopPlayback`, which does not clear
`packetsPlayed`) has `packetsPlayed = 1` while `getPlaybackPosition`
reports 0, because the Idle branch returns 0
(PlaybackEngine.cpp line 490). -/
theorem C6_counterexample_idle_position :
    Reachable pbC6end ∧ pbC6end.state = .idle ∧
    pbC6end.packetsPlayed = 1 ∧
    getPlaybackPosition pbC6end ≠ pbC6end.packetsPlayed * OPUS_FRAME_MS := by
  refine ⟨?_, by decide, by decide, by decide⟩
  have h1 : Reachable (mkPB [pbC6file]) := Reachable.init _
  have h2 : startPlayback 0 (mkPB [pbC6file]) = some pbC6start := by decide
  have h3 := Reachable.start _ 0 _ h1 h2
  exact Reachable.proc _ (fun _ => true) (fun _ => some [5]) 0 h3


end VoiceChat
